import Mathlib

/-!
Verification of the Nerts engine (`src/core/nerts.ts`, `src/core/cards.ts`)

Shallow embedding of the multiplayer Nerts card engine.  TypeScript arrays
are Lean lists with index 0 first and the "top" of a pile at the end, as in
the source (`top is at end`).  `Math.random()`-driven choices (the
Fisher-Yates shuffle) are parametrised by an explicit stream of numbers, the
value at step `i` being reduced mod `i+1` exactly as `Math.floor(random()*(i+1))`
produces a number in `[0, i]`.  `Date.now()` is parametrised by a `now` input.
All other code is deterministic and is translated directly.
-/

namespace Nerts

/-- Embeds `Suit` from `src/core/cards.ts`: `"♠" | "♥" | "♦" | "♣"`. -/
inductive Suit where
  | spades | hearts | diamonds | clubs
deriving DecidableEq, Repr

/-- Embeds `Rank` from `src/core/cards.ts`: `"A" | "2" | ... | "K"`. -/
inductive Rank where
  | ace | r2 | r3 | r4 | r5 | r6 | r7 | r8 | r9 | r10 | jack | queen | king
deriving DecidableEq, Repr

/-- String form of a suit, for building card ids. -/
def Suit.str : Suit → String
  | .spades => "S" | .hearts => "H" | .diamonds => "D" | .clubs => "C"

/-- String form of a rank, for building card ids. -/
def Rank.str : Rank → String
  | .ace => "A" | .r2 => "2" | .r3 => "3" | .r4 => "4" | .r5 => "5"
  | .r6 => "6" | .r7 => "7" | .r8 => "8" | .r9 => "9" | .r10 => "10"
  | .jack => "J" | .queen => "Q" | .king => "K"

/-- Embeds `Card` from `src/core/cards.ts`. -/
structure Card where
  suit : Suit
  rank : Rank
deriving DecidableEq, Repr

/-- Embeds `rankOrder` from `src/core/nerts.ts`. -/
def rankOrder : List Rank :=
  [.ace, .r2, .r3, .r4, .r5, .r6, .r7, .r8, .r9, .r10, .jack, .queen, .king]

/-- Embeds `getRankValue` from `src/core/nerts.ts`: `indexOf` into `rankOrder`,
`-1` (missing) mapped to `0`, otherwise index+1. -/
def getRankValue (rank : Rank) : Nat :=
  match rankOrder.findIdx? (fun r => r == rank) with
  | none => 0
  | some idx => idx + 1

/-- Embeds `isRedSuit` from `src/core/nerts.ts`. -/
def isRedSuit (suit : Suit) : Bool :=
  suit == .hearts || suit == .diamonds

/-- Embeds `createDeck` from `src/core/cards.ts`: suit-major, rank-minor enumeration. -/
def createDeck : List Card :=
  ([.spades, .hearts, .diamonds, .clubs] : List Suit).flatMap fun suit =>
    rankOrder.map fun rank => { suit := suit, rank := rank }

/-- The in-place swap `copy[i] = cj; copy[j] = ci` of `shuffle`, including its
`if (!ci || !cj) continue` guard for out-of-range reads. -/
def listSwap {α : Type} (l : List α) (i j : Nat) : List α :=
  match l[i]?, l[j]? with
  | some ci, some cj => (l.set i cj).set j ci
  | _, _ => l

/-- The Fisher-Yates loop of `shuffle`, indices `i = len-1, ..., 1`, one
random number consumed per iteration (`j = Math.floor(random()*(i+1))`). -/
def fyLoop {α : Type} : List Nat → List α → Nat → List α
  | _, copy, 0 => copy
  | rnds, copy, i + 1 =>
      let j := rnds.headD 0 % (i + 2)
      fyLoop rnds.tail (listSwap copy (i + 1) j) i

/-- Embeds `shuffle` from `src/core/cards.ts`, parametrised by the random stream. -/
def shuffle {α : Type} (rnds : List Nat) (deck : List α) : List α :=
  fyLoop rnds deck (deck.length - 1)

/-- Embeds `NertsCard` from `src/core/nerts.ts` (a `Card` extended with id, owner
and face-up flag; the `extends` is flattened). -/
structure NertsCard where
  suit : Suit
  rank : Rank
  id : String
  ownerId : String
  faceUp : Bool
deriving DecidableEq, Repr

instance : Inhabited NertsCard :=
  ⟨{ suit := .spades, rank := .ace, id := "", ownerId := "", faceUp := false }⟩

/-- Embeds `NertsPlayerState` from `src/core/nerts.ts`. -/
structure NertsPlayerState where
  id : String
  nertsPile : List NertsCard
  tableau : List (List NertsCard)
  stock : List NertsCard
  waste : List NertsCard
  score : Int
deriving DecidableEq, Repr

/-- Embeds `NertsFoundationPile` from `src/core/nerts.ts`. -/
structure NertsFoundationPile where
  suit : Option Suit
  cards : List NertsCard
deriving DecidableEq, Repr

/-- Embeds `NertsConfig` from `src/core/nerts.ts`. -/
structure NertsConfig where
  playerIds : List String
deriving DecidableEq, Repr

/-- Embeds `NertsState` from `src/core/nerts.ts`. -/
structure NertsState where
  players : List NertsPlayerState
  foundations : List NertsFoundationPile
  startedAt : Nat
  finished : Bool
  winnerId : Option String
deriving DecidableEq, Repr

/-- Embeds `makeFaceUp` from `src/core/nerts.ts`. -/
def makeFaceUp (c : NertsCard) : NertsCard :=
  { c with faceUp := true }

/-- The per-player dealing of `initNerts`: shuffle a private deck, tag the
cards, deal 13 to the Nerts pile (top face-up), seed 4 tableau columns with
one face-up card each, rest to stock. -/
def initPlayer (playerId : String) (rnds : List Nat) : NertsPlayerState :=
  let baseDeck := shuffle rnds createDeck
  let all : List NertsCard := baseDeck.enum.map fun ic =>
    { suit := ic.2.suit, rank := ic.2.rank,
      id := playerId ++ "-" ++ ic.2.rank.str ++ ic.2.suit.str ++ "-" ++ toString ic.1,
      ownerId := playerId, faceUp := false }
  let rawNerts := all.take 13
  let nertsPile := rawNerts.enum.map fun ic =>
    if ic.1 = rawNerts.length - 1 then makeFaceUp ic.2 else ic.2
  let t0 := makeFaceUp (all.getD 13 default)
  let t1 := makeFaceUp (all.getD 14 default)
  let t2 := makeFaceUp (all.getD 15 default)
  let t3 := makeFaceUp (all.getD 16 default)
  let tableau := [[t0], [t1], [t2], [t3]]
  let stock := all.drop 17
  { id := playerId, nertsPile := nertsPile, tableau := tableau,
    stock := stock, waste := [], score := 0 }

/-- Embeds `initNerts` from `src/core/nerts.ts`; `rnds` supplies each player's
shuffle randomness, `now` is `Date.now()`. -/
def initNerts (config : NertsConfig) (rnds : List (List Nat)) (now : Nat) : NertsState :=
  let foundations : List NertsFoundationPile :=
    List.replicate (config.playerIds.length * 4) { suit := none, cards := [] }
  let players := config.playerIds.enum.map fun kp =>
    initPlayer kp.2 (rnds.getD kp.1 [])
  { players := players, foundations := foundations,
    startedAt := now, finished := false, winnerId := none }

/-- Embeds `NertsAction` from `src/core/nerts.ts`. -/
inductive NertsAction where
  | stock_draw (playerId : String)
  | waste_to_tableau (playerId : String) (tableauIndex : Nat)
  | waste_to_foundation (playerId : String) (foundationIndex : Nat)
  | tableau_to_tableau (playerId : String) (fromIndex toIndex : Nat) (cardId : String)
  | tableau_to_foundation (playerId : String) (fromIndex foundationIndex : Nat)
  | nerts_to_tableau (playerId : String) (tableauIndex : Nat)
  | nerts_to_foundation (playerId : String) (foundationIndex : Nat)
deriving DecidableEq, Repr

/-- The `playerId` field shared by every action variant. -/
def NertsAction.playerId : NertsAction → String
  | .stock_draw p => p
  | .waste_to_tableau p _ => p
  | .waste_to_foundation p _ => p
  | .tableau_to_tableau p _ _ _ => p
  | .tableau_to_foundation p _ _ => p
  | .nerts_to_tableau p _ => p
  | .nerts_to_foundation p _ => p

/-- Embeds `isNertsFinished` from `src/core/nerts.ts`. -/
def isNertsFinished (state : NertsState) : Bool :=
  state.finished

/-- Embeds `canPlaceOnTableau` from `src/core/nerts.ts`.  `destTop` is
`dest[dest.length-1]` (`none` when the column is empty). -/
def canPlaceOnTableau (destTop : Option NertsCard) (card : NertsCard)
    (allowAnyOnEmpty : Bool := false) : Bool :=
  let cRank := getRankValue card.rank
  let cRed := isRedSuit card.suit
  match destTop with
  | none =>
      if allowAnyOnEmpty then true else cRank == 13
  | some destTop =>
      let dRank := getRankValue destTop.rank
      let dRed := isRedSuit destTop.suit
      (cRed != dRed) && (cRank == dRank - 1)

/-- Embeds `canPlaceOnFoundation` from `src/core/nerts.ts`. -/
def canPlaceOnFoundation (pile : NertsFoundationPile) (card : NertsCard) : Bool :=
  let cRank := getRankValue card.rank
  match pile.cards.getLast? with
  | none => cRank == 1
  | some top =>
      if top.suit != card.suit then false
      else cRank == getRankValue top.rank + 1

/-- The `for (i < drawCount) { stock.pop → waste.push(faceUp) }` loop of the
`stock_draw` branch, including its `if (!c) break` guard. -/
def drawLoop : Nat → List NertsCard × List NertsCard → List NertsCard × List NertsCard
  | 0, sw => sw
  | n + 1, (stock, waste) =>
      match stock.getLast? with
      | none => (stock, waste)
      | some c => drawLoop n (stock.dropLast, waste ++ [makeFaceUp c])

/-- The "flip the newly exposed last card face-up if needed" pattern that the
reducer applies to the source tableau column and to the Nerts pile. -/
def flipLastIfHidden (l : List NertsCard) : List NertsCard :=
  match l.getLast? with
  | none => l
  | some c => if c.faceUp then l else l.set (l.length - 1) (makeFaceUp c)

/-- Push a card onto a foundation pile and fix its suit if still `null`
(`f.cards.push(top); if (f.suit === null) f.suit = top.suit`). -/
def foundationPush (f : NertsFoundationPile) (top : NertsCard) : NertsFoundationPile :=
  { suit := match f.suit with | none => some top.suit | some s => some s,
    cards := f.cards ++ [top] }

/-- The action-specific body of `applyNertsAction`: given the acting player's
(cloned) record and the (cloned) foundations, either `none` — the reducer hit
a `return state` / left `used` false — or the updated player, foundations and
`scoreDelta`.  Cloning is the identity under Lean's value semantics. -/
def runAction (player : NertsPlayerState) (foundations : List NertsFoundationPile) :
    NertsAction → Option (NertsPlayerState × List NertsFoundationPile × Int)
  | .stock_draw _ =>
      if player.stock.length > 0 then
        let drawCount := min 3 player.stock.length
        let sw := drawLoop drawCount (player.stock, player.waste)
        some ({ player with stock := sw.1, waste := sw.2 }, foundations, 0)
      else if player.waste.length > 0 then
        let recycled := player.waste.reverse.map fun c => { c with faceUp := false }
        some ({ player with stock := recycled, waste := [] }, foundations, 0)
      else
        none
  | .waste_to_tableau _ tableauIndex =>
      match player.tableau[tableauIndex]? with
      | none => none
      | some dest =>
        match player.waste.getLast? with
        | none => none
        | some top =>
          if !canPlaceOnTableau dest.getLast? top then none
          else
            some ({ player with
                      waste := player.waste.dropLast,
                      tableau := player.tableau.set tableauIndex (dest ++ [top]) },
                  foundations, 0)
  | .waste_to_foundation _ foundationIndex =>
      match foundations[foundationIndex]? with
      | none => none
      | some f =>
        match player.waste.getLast? with
        | none => none
        | some top =>
          if !canPlaceOnFoundation f top then none
          else
            some ({ player with waste := player.waste.dropLast },
                  foundations.set foundationIndex (foundationPush f top), 1)
  | .tableau_to_tableau _ fromIndex toIndex cardId =>
      match player.tableau[fromIndex]?, player.tableau[toIndex]? with
      | some fromPile, some toPile =>
        match fromPile.findIdx? (fun c => c.id == cardId) with
        | none => none
        | some idx =>
          let moving := fromPile.drop idx
          match moving.head? with
          | none => none
          | some m0 =>
            if !m0.faceUp then none
            else if !canPlaceOnTableau toPile.getLast? m0 then none
            else
              -- remove from source, flip the newly exposed top, append to dest;
              -- `toPile` was captured before the source column was replaced
              let newFrom := flipLastIfHidden (fromPile.take idx)
              some ({ player with
                        tableau := (player.tableau.set fromIndex newFrom).set
                          toIndex (toPile ++ moving) },
                    foundations, 0)
      | _, _ => none
  | .tableau_to_foundation _ fromIndex foundationIndex =>
      match player.tableau[fromIndex]?, foundations[foundationIndex]? with
      | some fromPile, some f =>
        match fromPile.getLast? with
        | none => none
        | some top =>
          if !top.faceUp then none
          else if !canPlaceOnFoundation f top then none
          else
            some ({ player with
                      tableau := player.tableau.set fromIndex
                        (flipLastIfHidden fromPile.dropLast) },
                  foundations.set foundationIndex (foundationPush f top), 1)
      | _, _ => none
  | .nerts_to_tableau _ tableauIndex =>
      match player.tableau[tableauIndex]? with
      | none => none
      | some dest =>
        match player.nertsPile.getLast? with
        | none => none
        | some top =>
          if !top.faceUp then none
          else if !canPlaceOnTableau dest.getLast? top true then none
          else
            some ({ player with
                      nertsPile := flipLastIfHidden player.nertsPile.dropLast,
                      tableau := player.tableau.set tableauIndex (dest ++ [top]) },
                  foundations, 0)
  | .nerts_to_foundation _ foundationIndex =>
      match foundations[foundationIndex]? with
      | none => none
      | some f =>
        match player.nertsPile.getLast? with
        | none => none
        | some top =>
          if !top.faceUp then none
          else if !canPlaceOnFoundation f top then none
          else
            some ({ player with nertsPile := flipLastIfHidden player.nertsPile.dropLast },
                  foundations.set foundationIndex (foundationPush f top), 2)

/-- Embeds `finalize` from `src/core/nerts.ts` (the `used = true` path): add the
score delta, detect the win (`nertsPile.length === 0` for the acting player,
setting `finished` and `winnerId` atomically), rebuild the state. -/
def finalize (state : NertsState) (playerIndex : Nat) (player : NertsPlayerState)
    (foundations : List NertsFoundationPile) (scoreDelta : Int) : NertsState :=
  let player := { player with score := player.score + scoreDelta }
  let fw :=
    if !state.finished && player.nertsPile.length == 0 then
      (true, some player.id)
    else
      (state.finished, state.winnerId)
  { state with
      players := state.players.set playerIndex player,
      foundations := foundations,
      finished := fw.1, winnerId := fw.2 }

/-- Embeds `applyNertsAction` from `src/core/nerts.ts`.  Every `return state` of the
source (finished game, unknown player, unmet precondition) returns the input
state itself. -/
def applyNertsAction (state : NertsState) (action : NertsAction) : NertsState :=
  if state.finished then state
  else
    match state.players.findIdx? (fun p => p.id == action.playerId) with
    | none => state
    | some playerIndex =>
      match state.players[playerIndex]? with
      | none => state
      | some player =>
        match runAction player state.foundations action with
        | none => state
        | some (p, fs, delta) => finalize state playerIndex p fs delta

/-- Whether the reducer accepts the action (the source reaches `finalize`
with `used = true` rather than any `return state` path). -/
def acceptedBy (state : NertsState) (action : NertsAction) : Bool :=
  if state.finished then false
  else
    match state.players.findIdx? (fun p => p.id == action.playerId) with
    | none => false
    | some playerIndex =>
      match state.players[playerIndex]? with
      | none => false
      | some player => (runAction player state.foundations action).isSome

/-! ## Bot logic (`src/core/nerts.ts`, bottom half)

Each `for`-loop searching for the first feasible index is rendered with
`List.find?` / `List.findSome?` over `List.range`, which returns the first
match in the same scan order as the source's early `return`. -/

instance : Inhabited NertsFoundationPile := ⟨{ suit := none, cards := [] }⟩

/-- Embeds `findNertsToFoundation`. -/
def findNertsToFoundation (state : NertsState) (player : NertsPlayerState) :
    Option NertsAction :=
  match player.nertsPile.getLast? with
  | none => none
  | some top =>
    if !top.faceUp then none
    else
      ((List.range state.foundations.length).find? fun i =>
          canPlaceOnFoundation (state.foundations.getD i default) top).map
        fun i => .nerts_to_foundation player.id i

/-- Embeds `findNertsToTableau` (its `state` argument is unused in the source too). -/
def findNertsToTableau (_state : NertsState) (player : NertsPlayerState) :
    Option NertsAction :=
  match player.nertsPile.getLast? with
  | none => none
  | some top =>
    if !top.faceUp then none
    else
      ((List.range player.tableau.length).find? fun i =>
          canPlaceOnTableau (player.tableau.getD i []).getLast? top true).map
        fun i => .nerts_to_tableau player.id i

/-- Embeds `findTableauToFoundation`. -/
def findTableauToFoundation (state : NertsState) (player : NertsPlayerState) :
    Option NertsAction :=
  (List.range player.tableau.length).findSome? fun t =>
    let pile := player.tableau.getD t []
    match pile.getLast? with
    | none => none
    | some top =>
      if !top.faceUp then none
      else
        ((List.range state.foundations.length).find? fun fIdx =>
            canPlaceOnFoundation (state.foundations.getD fIdx default) top).map
          fun fIdx => .tableau_to_foundation player.id t fIdx

/-- Embeds `findWasteToFoundation`. -/
def findWasteToFoundation (state : NertsState) (player : NertsPlayerState) :
    Option NertsAction :=
  match player.waste.getLast? with
  | none => none
  | some top =>
    ((List.range state.foundations.length).find? fun fIdx =>
        canPlaceOnFoundation (state.foundations.getD fIdx default) top).map
      fun fIdx => .waste_to_foundation player.id fIdx

/-- Embeds `findWasteToTableau`. -/
def findWasteToTableau (_state : NertsState) (player : NertsPlayerState) :
    Option NertsAction :=
  match player.waste.getLast? with
  | none => none
  | some top =>
    ((List.range player.tableau.length).find? fun i =>
        canPlaceOnTableau (player.tableau.getD i []).getLast? top).map
      fun i => .waste_to_tableau player.id i

/-- Embeds `findTableauToTableau`: scan every face-up card of every column, but
only propose moves whose `cardBefore` (the card just beneath the run) exists
and is face-down, so the move exposes it. -/
def findTableauToTableau (_state : NertsState) (player : NertsPlayerState) :
    Option NertsAction :=
  (List.range player.tableau.length).findSome? fun fromIdx =>
    let pile := player.tableau.getD fromIdx []
    (List.range pile.length).findSome? fun idx =>
      let card := pile.getD idx default
      if !card.faceUp then none
      else
        match (if idx > 0 then pile[idx - 1]? else none) with
        | none => none
        | some cardBefore =>
          if cardBefore.faceUp then none
          else
            ((List.range player.tableau.length).findSome? fun toIdx =>
              if toIdx == fromIdx then none
              else if canPlaceOnTableau (player.tableau.getD toIdx []).getLast? card then
                some toIdx
              else none).map
              fun toIdx => .tableau_to_tableau player.id fromIdx toIdx card.id

/-- Embeds `botStep` from `src/core/nerts.ts`: fixed priority cascade, first
feasible proposal, delegated to `applyNertsAction`. -/
def botStep (state : NertsState) (botId : String) : NertsState :=
  if state.finished then state
  else
    match state.players.find? (fun p => p.id == botId) with
    | none => state
    | some player =>
      let action :=
        match findNertsToFoundation state player with
        | some a => a
        | none =>
          match findTableauToFoundation state player with
          | some a => a
          | none =>
            match findWasteToFoundation state player with
            | some a => a
            | none =>
              match findNertsToTableau state player with
              | some a => a
              | none =>
                match findTableauToTableau state player with
                | some a => a
                | none =>
                  match findWasteToTableau state player with
                  | some a => a
                  | none => .stock_draw botId
      applyNertsAction state action

/-! ## Spec-side definitions

These two definitions follow the WORDS of `spec.md` §4.3 (the action table:
preconditions and score deltas), not the code; the theorems below relate
them to the reducer. -/

/-- Modelled from the spec's §4.3 action table: the precondition of each
action, for the resolved acting player (player known, game not finished,
indices in range, placement rules satisfied). -/
def specPrecond (state : NertsState) (action : NertsAction) : Bool :=
  if state.finished then false
  else
    match state.players.find? (fun p => p.id == action.playerId) with
    | none => false
    | some p =>
      match action with
      | .stock_draw _ => !p.stock.isEmpty || !p.waste.isEmpty
      | .waste_to_tableau _ i =>
          match p.tableau[i]?, p.waste.getLast? with
          | some dest, some top => canPlaceOnTableau dest.getLast? top
          | _, _ => false
      | .waste_to_foundation _ i =>
          match state.foundations[i]?, p.waste.getLast? with
          | some f, some top => canPlaceOnFoundation f top
          | _, _ => false
      | .tableau_to_tableau _ fromIdx toIdx cardId =>
          match p.tableau[fromIdx]?, p.tableau[toIdx]? with
          | some fromPile, some toPile =>
            match fromPile.findIdx? (fun c => c.id == cardId) with
            | none => false
            | some idx =>
              match (fromPile.drop idx).head? with
              | none => false
              | some m0 => m0.faceUp && canPlaceOnTableau toPile.getLast? m0
          | _, _ => false
      | .tableau_to_foundation _ fromIdx fIdx =>
          match p.tableau[fromIdx]?, state.foundations[fIdx]? with
          | some fromPile, some f =>
            match fromPile.getLast? with
            | none => false
            | some top => top.faceUp && canPlaceOnFoundation f top
          | _, _ => false
      | .nerts_to_tableau _ i =>
          match p.tableau[i]?, p.nertsPile.getLast? with
          | some dest, some top =>
              top.faceUp && canPlaceOnTableau dest.getLast? top true
          | _, _ => false
      | .nerts_to_foundation _ i =>
          match state.foundations[i]?, p.nertsPile.getLast? with
          | some f, some top => top.faceUp && canPlaceOnFoundation f top
          | _, _ => false

/-- Modelled from the spec's §4.3 score-delta column. -/
def specScoreDelta : NertsAction → Int
  | .stock_draw _ => 0
  | .waste_to_tableau _ _ => 0
  | .waste_to_foundation _ _ => 1
  | .tableau_to_tableau _ _ _ _ => 0
  | .tableau_to_foundation _ _ _ => 1
  | .nerts_to_tableau _ _ => 0
  | .nerts_to_foundation _ _ => 2

/-! ## Reachability and the game invariant -/

/-- A state is reachable when some initial deal followed by some action
sequence produces it. -/
def Reachable (s : NertsState) : Prop :=
  ∃ (config : NertsConfig) (rnds : List (List Nat)) (now : Nat)
    (acts : List NertsAction),
    s = acts.foldl applyNertsAction (initNerts config rnds now)

/-- Total number of cards in one player's containers. -/
def playerCardCount (p : NertsPlayerState) : Nat :=
  p.nertsPile.length + (p.tableau.map List.length).sum + p.stock.length +
    p.waste.length

/-- Total number of cards across every container of the state. -/
def totalCards (s : NertsState) : Nat :=
  (s.players.map playerCardCount).sum +
    (s.foundations.map (fun f => f.cards.length)).sum

/-- A foundation pile is well-formed: the suit tag is `none` exactly while
the pile is empty, it covers every card on the pile, and the ranks read
`1, 2, ..., n` bottom to top. -/
def FoundationOk (f : NertsFoundationPile) : Prop :=
  (f.cards = [] → f.suit = none) ∧
    (∀ c ∈ f.cards, f.suit = some c.suit) ∧
    f.cards.map (fun c => getRankValue c.rank) = List.range' 1 f.cards.length

/-- Adjacency within a tableau column: the card `b` sitting on `a` is of the
opposite color and of rank exactly one less. -/
def tabAdj (a b : NertsCard) : Prop :=
  isRedSuit b.suit ≠ isRedSuit a.suit ∧ getRankValue b.rank + 1 = getRankValue a.rank

/-- The game invariant: card conservation, foundation well-formedness,
tableau and waste cards all face-up, and tableau columns strictly
descending with alternating colors. -/
structure WF (s : NertsState) : Prop where
  count : totalCards s = 52 * s.players.length
  found : ∀ f ∈ s.foundations, FoundationOk f
  tabUp : ∀ p ∈ s.players, ∀ col ∈ p.tableau, ∀ c ∈ col, c.faceUp = true
  wasteUp : ∀ p ∈ s.players, ∀ c ∈ p.waste, c.faceUp = true
  tabChain : ∀ p ∈ s.players, ∀ col ∈ p.tableau, List.Chain' tabAdj col

/-! ## Helper lemmas -/

theorem one_le_getRankValue (r : Rank) : 1 ≤ getRankValue r := by
  cases r <;> decide

theorem findIdx?_some_get {α : Type} {p : α → Bool} :
    ∀ {l : List α} {i : Nat}, l.findIdx? p = some i →
      ∃ x, l[i]? = some x ∧ p x = true ∧ l.find? p = some x := by
  intro l
  induction l with
  | nil =>
    intro i h
    rw [List.findIdx?_nil] at h
    exact Option.noConfusion h
  | cons a t ih =>
    intro i h
    rw [List.findIdx?_cons] at h
    by_cases hp : p a
    · simp [hp] at h
      exact ⟨a, by simp [← h], hp, by simp [List.find?_cons, hp]⟩
    · simp only [hp, if_neg, Bool.false_eq_true, if_false, List.findIdx?_succ] at h
      match hi : t.findIdx? p with
      | none => rw [hi] at h; simp at h
      | some i' =>
        rw [hi] at h
        simp only [Option.map_some', Option.some.injEq] at h
        obtain ⟨x, hx, hpx, hfind⟩ := ih hi
        subst h
        exact ⟨x, by simpa using hx, hpx, by simp [List.find?_cons, hp, hfind]⟩

theorem getElem?_some_mem {α : Type} {l : List α} {i : Nat} {x : α}
    (h : l[i]? = some x) : x ∈ l := by
  have hlt : i < l.length := by
    by_contra hge
    rw [List.getElem?_eq_none (by omega)] at h
    exact Option.noConfusion h
  rw [List.getElem?_eq_getElem hlt] at h
  cases h
  exact List.getElem_mem hlt

theorem getLast?_some_pos {α : Type} {l : List α} {x : α}
    (h : l.getLast? = some x) : 0 < l.length := by
  cases l with
  | nil => simp at h
  | cons a t => simp

theorem getLast?_some_mem {α : Type} {l : List α} {x : α}
    (h : l.getLast? = some x) : x ∈ l := by
  rw [List.getLast?_eq_getElem?] at h
  exact getElem?_some_mem h

theorem sum_set_get (l : List Nat) (i : Nat) (x y : Nat)
    (h : l[i]? = some x) : (l.set i y).sum + x = l.sum + y := by
  induction l generalizing i with
  | nil => simp at h
  | cons a t ih =>
    cases i with
    | zero => simp at h; simp [List.set, h]; omega
    | succ n =>
      simp only [List.getElem?_cons_succ] at h
      have := ih n h
      simp [List.set]
      omega

theorem sum_map_const {α : Type} (l : List α) (f : α → Nat) (c : Nat)
    (h : ∀ x ∈ l, f x = c) : (l.map f).sum = c * l.length := by
  induction l with
  | nil => simp
  | cons a t ih =>
    simp only [List.map_cons, List.sum_cons, List.length_cons]
    rw [h a (List.mem_cons_self a t), ih (fun x hx => h x (List.mem_cons_of_mem a hx))]
    ring

theorem set_last_eq {α : Type} {l : List α} {c : α} (x : α)
    (h : l.getLast? = some c) : l.set (l.length - 1) x = l.dropLast ++ [x] := by
  induction l with
  | nil => simp at h
  | cons a t ih =>
    cases t with
    | nil => simp
    | cons b u =>
      have h' : (b :: u).getLast? = some c := by
        rw [List.getLast?_cons_cons] at h; exact h
      have hrec := ih h'
      simp only [List.length_cons, Nat.add_sub_cancel] at hrec ⊢
      rw [List.set_cons_succ, hrec,
        List.dropLast_cons_of_ne_nil (by simp : b :: u ≠ []), List.cons_append]

theorem makeFaceUp_suit (c : NertsCard) : (makeFaceUp c).suit = c.suit := rfl

theorem makeFaceUp_rank (c : NertsCard) : (makeFaceUp c).rank = c.rank := rfl

theorem flipLastIfHidden_length (l : List NertsCard) :
    (flipLastIfHidden l).length = l.length := by
  unfold flipLastIfHidden
  split
  · rfl
  · split
    · rfl
    · exact List.length_set l _ _

/-- The helper `flipLastIfHidden` either leaves the list alone or rewrites its last
element to the face-up copy. -/
theorem flipLastIfHidden_cases (l : List NertsCard) :
    flipLastIfHidden l = l ∨
      ∃ c, l.getLast? = some c ∧ c.faceUp = false ∧
        flipLastIfHidden l = l.dropLast ++ [makeFaceUp c] := by
  unfold flipLastIfHidden
  split
  · exact Or.inl rfl
  · rename_i c hc
    split
    · exact Or.inl rfl
    · rename_i hup
      exact Or.inr ⟨c, hc, by revert hup; cases c.faceUp <;> simp,
        set_last_eq (makeFaceUp c) hc⟩

theorem flipLastIfHidden_of_allUp {l : List NertsCard}
    (h : ∀ c ∈ l, c.faceUp = true) : flipLastIfHidden l = l := by
  rcases flipLastIfHidden_cases l with heq | ⟨c, hc, hup, _⟩
  · exact heq
  · rw [h c (getLast?_some_mem hc)] at hup
    exact Bool.noConfusion hup

theorem mem_flipLastIfHidden_faceUp {l : List NertsCard}
    (h : ∀ c ∈ l, c.faceUp = true) :
    ∀ c ∈ flipLastIfHidden l, c.faceUp = true := by
  rw [flipLastIfHidden_of_allUp h]; exact h

theorem tabAdj_makeFaceUp_right (a b : NertsCard) :
    tabAdj a (makeFaceUp b) ↔ tabAdj a b := Iff.rfl

theorem chain_flipLastIfHidden {l : List NertsCard}
    (h : List.Chain' tabAdj l) : List.Chain' tabAdj (flipLastIfHidden l) := by
  rcases flipLastIfHidden_cases l with heq | ⟨c, hc, _, heq⟩
  · rw [heq]; exact h
  · rw [heq]
    have hne : l ≠ [] := by intro hnil; rw [hnil] at hc; simp at hc
    have hl : l = l.dropLast ++ [c] := by
      have hgl := List.getLast?_eq_getLast l hne
      rw [hc] at hgl
      injection hgl with hgl
      rw [hgl]
      exact (List.dropLast_append_getLast hne).symm
    rw [hl] at h
    rw [List.chain'_append] at h ⊢
    refine ⟨h.1, List.chain'_singleton _, ?_⟩
    intro x hx y hy
    simp only [List.head?_cons, Option.mem_def, Option.some.injEq] at hy
    subst hy
    exact h.2.2 x hx c (by simp)

/-- The `canPlaceOnTableau` test onto a non-empty column is exactly the
tableau adjacency relation. -/
theorem canPlaceOnTableau_some_iff (d c : NertsCard) (b : Bool) :
    canPlaceOnTableau (some d) c b = true ↔ tabAdj d c := by
  unfold canPlaceOnTableau tabAdj
  have hc := one_le_getRankValue c.rank
  have hd := one_le_getRankValue d.rank
  simp only [Bool.and_eq_true, bne_iff_ne, ne_eq, beq_iff_eq]
  constructor
  · rintro ⟨hne, heq⟩
    exact ⟨fun hcontra => hne (by rw [hcontra]), by omega⟩
  · rintro ⟨hne, heq⟩
    exact ⟨fun hcontra => hne (by rw [hcontra]), by omega⟩

theorem canPlaceOnTableau_none (c : NertsCard) (b : Bool) :
    canPlaceOnTableau none c b = true ↔ (b = true ∨ getRankValue c.rank = 13) := by
  unfold canPlaceOnTableau
  cases b <;> simp

/-- Ranks never increase along a tableau chain, reading bottom-up. -/
theorem chain_rank_le {l : List NertsCard} (h : List.Chain' tabAdj l)
    {hd : NertsCard} (hh : l.head? = some hd) :
    ∀ c ∈ l, getRankValue c.rank ≤ getRankValue hd.rank := by
  induction l generalizing hd with
  | nil => intro c hc; simp at hc
  | cons a t ih =>
    simp only [List.head?_cons, Option.some.injEq] at hh
    subst hh
    intro c hc
    rcases List.mem_cons.mp hc with rfl | hct
    · exact le_refl _
    · cases t with
      | nil => simp at hct
      | cons b u =>
        have hchain := List.chain'_cons.mp h
        have hadj : tabAdj a b := hchain.1
        have := ih hchain.2 rfl c hct
        have := hadj.2
        omega

/-- In a well-formed column no run can be placed back onto its own column:
the column's top has rank at most the run's leading rank, while a legal
placement demands strictly greater. -/
theorem no_self_place {pile : List NertsCard} (hch : List.Chain' tabAdj pile)
    {idx : Nat} {m0 lastc : NertsCard}
    (hm0 : (pile.drop idx).head? = some m0)
    (hlast : pile.getLast? = some lastc)
    (hplace : canPlaceOnTableau (some lastc) m0 = true) : False := by
  have hadj := (canPlaceOnTableau_some_iff lastc m0 false).mp hplace
  have hchd : List.Chain' tabAdj (pile.drop idx) := List.Chain'.drop hch idx
  have hlast' : (pile.drop idx).getLast? = some lastc := by
    have hne : pile.drop idx ≠ [] := by
      intro hnil; rw [hnil] at hm0; simp at hm0
    rw [← List.take_append_drop idx pile, List.getLast?_append] at hlast
    cases hgl : (pile.drop idx).getLast? with
    | none => exact absurd (List.getLast?_eq_none_iff.mp hgl) hne
    | some y => rw [hgl] at hlast; simpa using hlast
  have hmem : lastc ∈ pile.drop idx := getLast?_some_mem hlast'
  have := chain_rank_le hchd hm0 lastc hmem
  have := hadj.2
  omega

/-- Characterization of `canPlaceOnFoundation`: an empty pile takes only an
Ace, a non-empty pile takes only the suit of its top card at the successor
rank. -/
theorem canPlaceOnFoundation_iff (f : NertsFoundationPile) (c : NertsCard) :
    canPlaceOnFoundation f c = true ↔
      (f.cards.getLast? = none ∧ getRankValue c.rank = 1) ∨
      (∃ top, f.cards.getLast? = some top ∧ top.suit = c.suit ∧
        getRankValue c.rank = getRankValue top.rank + 1) := by
  unfold canPlaceOnFoundation
  cases hl : f.cards.getLast? with
  | none => simp
  | some top =>
    simp only [hl, Option.some.injEq, reduceCtorEq, false_and, false_or]
    by_cases hs : top.suit = c.suit
    · simp only [hs, bne_self_eq_false, Bool.false_eq_true, if_false, beq_iff_eq]
      constructor
      · intro h; exact ⟨top, rfl, hs, h⟩
      · rintro ⟨t, rfl, _, h⟩
        exact h
    · have hbne : (top.suit != c.suit) = true := by
        simpa [bne_iff_ne] using hs
      simp only [hbne, if_true, Bool.false_eq_true, false_iff]
      rintro ⟨t, rfl, hsuits, _⟩
      exact hs hsuits

/-- Pushing a legal card onto a well-formed foundation keeps it well-formed. -/
theorem foundationOk_push {f : NertsFoundationPile} {c : NertsCard}
    (hok : FoundationOk f) (hc : canPlaceOnFoundation f c = true) :
    FoundationOk (foundationPush f c) := by
  obtain ⟨hempty, hsuit, hranks⟩ := hok
  rcases (canPlaceOnFoundation_iff f c).mp hc with ⟨hlast, hrank⟩ | ⟨top, hlast, hsuits, hrank⟩
  · -- empty pile: the Ace opens it and decides its suit
    have hnil : f.cards = [] := List.getLast?_eq_none_iff.mp hlast
    refine ⟨fun h => absurd h (by simp [foundationPush, hnil]), ?_, ?_⟩
    · intro x hx
      simp only [foundationPush, hempty hnil, hnil, List.nil_append,
        List.mem_singleton] at hx ⊢
      subst hx; rfl
    · simp [foundationPush, hnil, hrank]
  · -- non-empty pile: successor rank of the same suit
    have htopmem : top ∈ f.cards := getLast?_some_mem hlast
    have hfs : f.suit = some top.suit := hsuit top htopmem
    have hps : (foundationPush f c).suit = f.suit := by
      simp [foundationPush, hfs]
    refine ⟨fun h => absurd h (by simp [foundationPush]), ?_, ?_⟩
    · intro x hx
      rw [hps]
      have hx' : x ∈ f.cards ++ [c] := hx
      rcases List.mem_append.mp hx' with hxc | hxc
      · exact hsuit x hxc
      · simp only [List.mem_singleton] at hxc
        subst hxc
        rw [hfs, hsuits]
    · have htoprank : getRankValue top.rank = f.cards.length := by
        have hlast2 : (f.cards.map (fun c => getRankValue c.rank)).getLast? =
            some (getRankValue top.rank) := by
          rw [List.getLast?_map, hlast]; rfl
        rw [hranks] at hlast2
        have hlen : 0 < f.cards.length := getLast?_some_pos hlast
        rw [List.getLast?_range', if_neg (by omega)] at hlast2
        simp only [Option.some.injEq] at hlast2
        omega
      simp only [foundationPush, List.map_append, List.map_cons, List.map_nil,
        List.length_append, List.length_singleton, hranks]
      rw [hrank, htoprank]
      have hconcat : List.range' 1 (f.cards.length + 1) =
          List.range' 1 f.cards.length ++ [1 + f.cards.length] := by
        rw [List.range'_1_concat]
      rw [hconcat]
      congr 2
      omega

theorem drawLoop_length (n : Nat) (st w : List NertsCard) :
    (drawLoop n (st, w)).1.length + (drawLoop n (st, w)).2.length =
      st.length + w.length := by
  induction n generalizing st w with
  | zero => rfl
  | succ m ih =>
    unfold drawLoop
    cases hl : st.getLast? with
    | none => rfl
    | some c =>
      have hpos : 0 < st.length := getLast?_some_pos hl
      have := ih st.dropLast (w ++ [makeFaceUp c])
      simp only [this, List.length_dropLast, List.length_append,
        List.length_singleton]
      omega

/-- Closed form of the draw loop: the last `n` cards of the stock move,
reversed and face-up, to the end of the waste. -/
theorem drawLoop_eq (n : Nat) (st w : List NertsCard) (h : n ≤ st.length) :
    drawLoop n (st, w) =
      (st.take (st.length - n),
       w ++ (st.drop (st.length - n)).reverse.map makeFaceUp) := by
  induction n generalizing st w with
  | zero =>
    simp [drawLoop, List.take_length]
  | succ m ih =>
    have hne : st ≠ [] := by
      intro hnil
      rw [hnil] at h
      simp at h
    have hl : st.getLast? = some (st.getLast hne) := List.getLast?_eq_getLast st hne
    have hstep : drawLoop (m + 1) (st, w) =
        drawLoop m (st.dropLast, w ++ [makeFaceUp (st.getLast hne)]) := by
      conv_lhs => unfold drawLoop
      rw [hl]
    rw [hstep]
    have hlen : st.dropLast.length = st.length - 1 := List.length_dropLast st
    have hm : m ≤ st.dropLast.length := by omega
    rw [ih st.dropLast (w ++ [makeFaceUp (st.getLast hne)]) hm]
    obtain ⟨k, hk⟩ : ∃ k, st.length - (m + 1) = k := ⟨_, rfl⟩
    have hidx : st.dropLast.length - m = k := by omega
    have hsplit : st = st.dropLast ++ [st.getLast hne] :=
      (List.dropLast_append_getLast hne).symm
    have hle : k ≤ st.dropLast.length := by omega
    rw [hk, hidx, Prod.mk.injEq]
    refine ⟨?_, ?_⟩
    · -- stocks agree
      rw [List.dropLast_eq_take, List.take_take]
      congr 1
      omega
    · -- wastes agree
      have hdrop : st.drop k = st.dropLast.drop k ++ [st.getLast hne] := by
        conv_lhs => rw [hsplit]
        rw [List.drop_append_of_le_length hle]
      rw [hdrop, List.reverse_append, List.reverse_singleton, List.singleton_append,
        List.map_cons, List.append_assoc]
      rfl

theorem apply_not_accepted {s : NertsState} {a : NertsAction}
    (h : acceptedBy s a = false) : applyNertsAction s a = s := by
  unfold applyNertsAction
  unfold acceptedBy at h
  by_cases hfin : s.finished
  · rw [if_pos hfin]
  · rw [if_neg hfin] at h ⊢
    cases hidx : s.players.findIdx? (fun p => p.id == a.playerId) with
    | none => rfl
    | some i =>
      simp only [hidx] at h ⊢
      cases hget : s.players[i]? with
      | none => rfl
      | some player =>
        simp only [hget] at h ⊢
        cases hrun : runAction player s.foundations a with
        | none => rfl
        | some trip =>
          simp only [hrun, Option.isSome_some] at h
          exact Bool.noConfusion h

/-- Inversion of an accepted action: the reducer resolved the acting player
and `finalize` was reached. -/
theorem apply_accepted {s : NertsState} {a : NertsAction}
    (h : acceptedBy s a = true) :
    s.finished = false ∧
      ∃ i player p fs d,
        s.players.findIdx? (fun q => q.id == a.playerId) = some i ∧
        s.players[i]? = some player ∧
        player.id = a.playerId ∧
        runAction player s.foundations a = some (p, fs, d) ∧
        applyNertsAction s a = finalize s i p fs d := by
  unfold acceptedBy at h
  by_cases hfin : s.finished
  · rw [if_pos hfin] at h
    exact Bool.noConfusion h
  · have hfin' : s.finished = false := by
      revert hfin; cases s.finished <;> simp
    refine ⟨hfin', ?_⟩
    rw [if_neg hfin] at h
    cases hidx : s.players.findIdx? (fun p => p.id == a.playerId) with
    | none =>
      simp only [hidx] at h
      exact Bool.noConfusion h
    | some i =>
      simp only [hidx] at h
      cases hget : s.players[i]? with
      | none =>
        simp only [hget] at h
        exact Bool.noConfusion h
      | some player =>
        simp only [hget] at h
        cases hrun : runAction player s.foundations a with
        | none =>
          simp only [hrun, Option.isSome_none] at h
          exact Bool.noConfusion h
        | some trip =>
          obtain ⟨p, fs, d⟩ := trip
          obtain ⟨x, hx, hpx, -⟩ := findIdx?_some_get hidx
          rw [hget] at hx
          injection hx with hx
          subst hx
          refine ⟨i, player, p, fs, d, rfl, hget, by simpa using hpx, hrun, ?_⟩
          unfold applyNertsAction
          rw [if_neg hfin]
          simp only [hidx, hget, hrun]

/-! ### Inversion lemmas, one per action variant -/

theorem runAction_stock_draw_inv {player : NertsPlayerState}
    {fs fs' : List NertsFoundationPile} {p : NertsPlayerState} {d : Int}
    {pid : String}
    (h : runAction player fs (.stock_draw pid) = some (p, fs', d)) :
    fs' = fs ∧ d = 0 ∧
      ((0 < player.stock.length ∧
          p = { player with
                  stock := player.stock.take
                    (player.stock.length - min 3 player.stock.length),
                  waste := player.waste ++
                    (player.stock.drop
                      (player.stock.length - min 3 player.stock.length)).reverse.map
                      makeFaceUp }) ∨
       (player.stock = [] ∧ player.waste ≠ [] ∧
          p = { player with
                  stock := player.waste.reverse.map fun c => { c with faceUp := false },
                  waste := [] })) := by
  simp only [runAction] at h
  by_cases hstock : player.stock.length > 0
  · rw [if_pos hstock] at h
    rw [drawLoop_eq (min 3 player.stock.length) player.stock player.waste
      (Nat.min_le_right _ _)] at h
    simp only [Option.some.injEq, Prod.mk.injEq] at h
    obtain ⟨h1, h2, h3⟩ := h
    exact ⟨h2.symm, h3.symm, Or.inl ⟨hstock, h1.symm⟩⟩
  · rw [if_neg hstock] at h
    by_cases hwaste : player.waste.length > 0
    · rw [if_pos hwaste] at h
      simp only [Option.some.injEq, Prod.mk.injEq] at h
      obtain ⟨h1, h2, h3⟩ := h
      refine ⟨h2.symm, h3.symm, Or.inr ⟨?_, ?_, h1.symm⟩⟩
      · exact List.length_eq_zero.mp (by omega)
      · intro hnil
        rw [hnil] at hwaste
        simp at hwaste
    · rw [if_neg hwaste] at h
      exact Option.noConfusion h

theorem runAction_w2t_inv {player : NertsPlayerState}
    {fs fs' : List NertsFoundationPile} {p : NertsPlayerState} {d : Int}
    {pid : String} {i : Nat}
    (h : runAction player fs (.waste_to_tableau pid i) = some (p, fs', d)) :
    ∃ dest top, player.tableau[i]? = some dest ∧
      player.waste.getLast? = some top ∧
      canPlaceOnTableau dest.getLast? top = true ∧
      p = { player with
              waste := player.waste.dropLast,
              tableau := player.tableau.set i (dest ++ [top]) } ∧
      fs' = fs ∧ d = 0 := by
  simp only [runAction] at h
  cases hdest : player.tableau[i]? with
  | none =>
    simp only [hdest] at h
    exact Option.noConfusion h
  | some dest =>
    simp only [hdest] at h
    cases htop : player.waste.getLast? with
    | none =>
      simp only [htop] at h
      exact Option.noConfusion h
    | some top =>
      simp only [htop] at h
      cases hc : canPlaceOnTableau dest.getLast? top with
      | false => simp [hc] at h
      | true =>
        simp only [hc, Bool.not_true, Bool.false_eq_true, if_false,
          Option.some.injEq, Prod.mk.injEq] at h
        obtain ⟨h1, h2, h3⟩ := h
        exact ⟨dest, top, rfl, rfl, hc, h1.symm, h2.symm, h3.symm⟩

theorem runAction_w2f_inv {player : NertsPlayerState}
    {fs fs' : List NertsFoundationPile} {p : NertsPlayerState} {d : Int}
    {pid : String} {i : Nat}
    (h : runAction player fs (.waste_to_foundation pid i) = some (p, fs', d)) :
    ∃ f top, fs[i]? = some f ∧
      player.waste.getLast? = some top ∧
      canPlaceOnFoundation f top = true ∧
      p = { player with waste := player.waste.dropLast } ∧
      fs' = fs.set i (foundationPush f top) ∧ d = 1 := by
  simp only [runAction] at h
  cases hf : fs[i]? with
  | none =>
    simp only [hf] at h
    exact Option.noConfusion h
  | some f =>
    simp only [hf] at h
    cases htop : player.waste.getLast? with
    | none =>
      simp only [htop] at h
      exact Option.noConfusion h
    | some top =>
      simp only [htop] at h
      cases hc : canPlaceOnFoundation f top with
      | false => simp [hc] at h
      | true =>
        simp only [hc, Bool.not_true, Bool.false_eq_true, if_false,
          Option.some.injEq, Prod.mk.injEq] at h
        obtain ⟨h1, h2, h3⟩ := h
        exact ⟨f, top, rfl, rfl, hc, h1.symm, h2.symm, h3.symm⟩

theorem runAction_t2t_inv {player : NertsPlayerState}
    {fs fs' : List NertsFoundationPile} {p : NertsPlayerState} {d : Int}
    {pid cid : String} {fromIdx toIdx : Nat}
    (h : runAction player fs (.tableau_to_tableau pid fromIdx toIdx cid) =
      some (p, fs', d)) :
    ∃ fromPile toPile idx m0,
      player.tableau[fromIdx]? = some fromPile ∧
      player.tableau[toIdx]? = some toPile ∧
      fromPile.findIdx? (fun c => c.id == cid) = some idx ∧
      (fromPile.drop idx).head? = some m0 ∧
      m0.faceUp = true ∧
      canPlaceOnTableau toPile.getLast? m0 = true ∧
      p = { player with
              tableau := (player.tableau.set fromIdx
                (flipLastIfHidden (fromPile.take idx))).set toIdx
                (toPile ++ fromPile.drop idx) } ∧
      fs' = fs ∧ d = 0 := by
  simp only [runAction] at h
  cases hfrom : player.tableau[fromIdx]? with
  | none =>
    simp only [hfrom] at h
    exact Option.noConfusion h
  | some fromPile =>
    cases hto : player.tableau[toIdx]? with
    | none =>
      simp only [hfrom, hto] at h
      exact Option.noConfusion h
    | some toPile =>
      simp only [hfrom, hto] at h
      cases hidx : fromPile.findIdx? (fun c => c.id == cid) with
      | none =>
        simp only [hidx] at h
        exact Option.noConfusion h
      | some idx =>
        simp only [hidx] at h
        cases hm0 : (fromPile.drop idx).head? with
        | none =>
          simp only [hm0] at h
          exact Option.noConfusion h
        | some m0 =>
          simp only [hm0] at h
          cases hup : m0.faceUp with
          | false => simp [hup] at h
          | true =>
            cases hc : canPlaceOnTableau toPile.getLast? m0 with
            | false => simp [hup, hc] at h
            | true =>
              simp only [hup, hc, Bool.not_true, Bool.false_eq_true, if_false,
                Option.some.injEq, Prod.mk.injEq] at h
              obtain ⟨h1, h2, h3⟩ := h
              exact ⟨fromPile, toPile, idx, m0, rfl, rfl, hidx, hm0, hup, hc,
                h1.symm, h2.symm, h3.symm⟩

theorem runAction_t2f_inv {player : NertsPlayerState}
    {fs fs' : List NertsFoundationPile} {p : NertsPlayerState} {d : Int}
    {pid : String} {fromIdx fIdx : Nat}
    (h : runAction player fs (.tableau_to_foundation pid fromIdx fIdx) =
      some (p, fs', d)) :
    ∃ fromPile f top,
      player.tableau[fromIdx]? = some fromPile ∧
      fs[fIdx]? = some f ∧
      fromPile.getLast? = some top ∧
      top.faceUp = true ∧
      canPlaceOnFoundation f top = true ∧
      p = { player with
              tableau := player.tableau.set fromIdx
                (flipLastIfHidden fromPile.dropLast) } ∧
      fs' = fs.set fIdx (foundationPush f top) ∧ d = 1 := by
  simp only [runAction] at h
  cases hfrom : player.tableau[fromIdx]? with
  | none =>
    simp only [hfrom] at h
    exact Option.noConfusion h
  | some fromPile =>
    cases hf : fs[fIdx]? with
    | none =>
      simp only [hfrom, hf] at h
      exact Option.noConfusion h
    | some f =>
      simp only [hfrom, hf] at h
      cases htop : fromPile.getLast? with
      | none =>
        simp only [htop] at h
        exact Option.noConfusion h
      | some top =>
        simp only [htop] at h
        cases hup : top.faceUp with
        | false => simp [hup] at h
        | true =>
          cases hc : canPlaceOnFoundation f top with
          | false => simp [hup, hc] at h
          | true =>
            simp only [hup, hc, Bool.not_true, Bool.false_eq_true, if_false,
              Option.some.injEq, Prod.mk.injEq] at h
            obtain ⟨h1, h2, h3⟩ := h
            exact ⟨fromPile, f, top, rfl, rfl, htop, hup, hc,
              h1.symm, h2.symm, h3.symm⟩

theorem runAction_n2t_inv {player : NertsPlayerState}
    {fs fs' : List NertsFoundationPile} {p : NertsPlayerState} {d : Int}
    {pid : String} {i : Nat}
    (h : runAction player fs (.nerts_to_tableau pid i) = some (p, fs', d)) :
    ∃ dest top, player.tableau[i]? = some dest ∧
      player.nertsPile.getLast? = some top ∧
      top.faceUp = true ∧
      canPlaceOnTableau dest.getLast? top true = true ∧
      p = { player with
              nertsPile := flipLastIfHidden player.nertsPile.dropLast,
              tableau := player.tableau.set i (dest ++ [top]) } ∧
      fs' = fs ∧ d = 0 := by
  simp only [runAction] at h
  cases hdest : player.tableau[i]? with
  | none =>
    simp only [hdest] at h
    exact Option.noConfusion h
  | some dest =>
    simp only [hdest] at h
    cases htop : player.nertsPile.getLast? with
    | none =>
      simp only [htop] at h
      exact Option.noConfusion h
    | some top =>
      simp only [htop] at h
      cases hup : top.faceUp with
      | false => simp [hup] at h
      | true =>
        cases hc : canPlaceOnTableau dest.getLast? top true with
        | false => simp [hup, hc] at h
        | true =>
          simp only [hup, hc, Bool.not_true, Bool.false_eq_true, if_false,
            Option.some.injEq, Prod.mk.injEq] at h
          obtain ⟨h1, h2, h3⟩ := h
          exact ⟨dest, top, rfl, rfl, hup, hc, h1.symm, h2.symm, h3.symm⟩

theorem runAction_n2f_inv {player : NertsPlayerState}
    {fs fs' : List NertsFoundationPile} {p : NertsPlayerState} {d : Int}
    {pid : String} {i : Nat}
    (h : runAction player fs (.nerts_to_foundation pid i) = some (p, fs', d)) :
    ∃ f top, fs[i]? = some f ∧
      player.nertsPile.getLast? = some top ∧
      top.faceUp = true ∧
      canPlaceOnFoundation f top = true ∧
      p = { player with nertsPile := flipLastIfHidden player.nertsPile.dropLast } ∧
      fs' = fs.set i (foundationPush f top) ∧ d = 2 := by
  simp only [runAction] at h
  cases hf : fs[i]? with
  | none =>
    simp only [hf] at h
    exact Option.noConfusion h
  | some f =>
    simp only [hf] at h
    cases htop : player.nertsPile.getLast? with
    | none =>
      simp only [htop] at h
      exact Option.noConfusion h
    | some top =>
      simp only [htop] at h
      cases hup : top.faceUp with
      | false => simp [hup] at h
      | true =>
        cases hc : canPlaceOnFoundation f top with
        | false => simp [hup, hc] at h
        | true =>
          simp only [hup, hc, Bool.not_true, Bool.false_eq_true, if_false,
            Option.some.injEq, Prod.mk.injEq] at h
          obtain ⟨h1, h2, h3⟩ := h
          exact ⟨f, top, rfl, rfl, hup, hc, h1.symm, h2.symm, h3.symm⟩

/-- Fields an action can never change on the acting player, plus the score
delta of every accepted action (matching the spec's table). -/
theorem runAction_fields {player : NertsPlayerState}
    {fs fs' : List NertsFoundationPile} {p : NertsPlayerState} {d : Int}
    {a : NertsAction} (h : runAction player fs a = some (p, fs', d)) :
    p.id = player.id ∧ p.score = player.score ∧ d = specScoreDelta a ∧
      fs'.length = fs.length := by
  cases a with
  | stock_draw pid =>
    obtain ⟨hfs, hd, hcases⟩ := runAction_stock_draw_inv h
    rcases hcases with ⟨-, hp⟩ | ⟨-, -, hp⟩ <;>
      simp [hp, hfs, hd, specScoreDelta]
  | waste_to_tableau pid i =>
    obtain ⟨dest, top, -, -, -, hp, hfs, hd⟩ := runAction_w2t_inv h
    simp [hp, hfs, hd, specScoreDelta]
  | waste_to_foundation pid i =>
    obtain ⟨f, top, -, -, -, hp, hfs, hd⟩ := runAction_w2f_inv h
    simp [hp, hfs, hd, specScoreDelta]
  | tableau_to_tableau pid fromIdx toIdx cid =>
    obtain ⟨fromPile, toPile, idx, m0, -, -, -, -, -, -, hp, hfs, hd⟩ :=
      runAction_t2t_inv h
    simp [hp, hfs, hd, specScoreDelta]
  | tableau_to_foundation pid fromIdx fIdx =>
    obtain ⟨fromPile, f, top, -, -, -, -, -, hp, hfs, hd⟩ := runAction_t2f_inv h
    simp [hp, hfs, hd, specScoreDelta]
  | nerts_to_tableau pid i =>
    obtain ⟨dest, top, -, -, -, -, hp, hfs, hd⟩ := runAction_n2t_inv h
    simp [hp, hfs, hd, specScoreDelta]
  | nerts_to_foundation pid i =>
    obtain ⟨f, top, -, -, -, -, hp, hfs, hd⟩ := runAction_n2f_inv h
    simp [hp, hfs, hd, specScoreDelta]

/-- Pointwise effect of an action on the foundation pool: each slot is
either untouched or receives one legally placed card. -/
theorem runAction_foundations {player : NertsPlayerState}
    {fs fs' : List NertsFoundationPile} {p : NertsPlayerState} {d : Int}
    {a : NertsAction} (h : runAction player fs a = some (p, fs', d)) :
    ∀ (i : Nat) (f : NertsFoundationPile), fs[i]? = some f →
      ∃ f', fs'[i]? = some f' ∧
        (f' = f ∨ ∃ top, canPlaceOnFoundation f top = true ∧
          f' = foundationPush f top) := by
  have hsame : fs' = fs →
      ∀ (i : Nat) (f : NertsFoundationPile), fs[i]? = some f →
        ∃ f', fs'[i]? = some f' ∧
          (f' = f ∨ ∃ top, canPlaceOnFoundation f top = true ∧
            f' = foundationPush f top) := by
    rintro rfl i f hf
    exact ⟨f, hf, Or.inl rfl⟩
  have hset : ∀ (j : Nat) (g : NertsFoundationPile) (top : NertsCard),
      fs[j]? = some g → canPlaceOnFoundation g top = true →
      fs' = fs.set j (foundationPush g top) →
      ∀ (i : Nat) (f : NertsFoundationPile), fs[i]? = some f →
        ∃ f', fs'[i]? = some f' ∧
          (f' = f ∨ ∃ top, canPlaceOnFoundation f top = true ∧
            f' = foundationPush f top) := by
    rintro j g top hg hc rfl i f hf
    by_cases hij : i = j
    · subst hij
      rw [hg] at hf
      injection hf with hf
      subst hf
      have hlt : i < fs.length := by
        by_contra hge
        rw [List.getElem?_eq_none (by omega)] at hg
        exact Option.noConfusion hg
      exact ⟨foundationPush g top, List.getElem?_set_self hlt,
        Or.inr ⟨top, hc, rfl⟩⟩
    · exact ⟨f, by rw [List.getElem?_set_ne (fun hji => hij hji.symm)]; exact hf,
        Or.inl rfl⟩
  cases a with
  | stock_draw pid =>
    obtain ⟨hfs, -, -⟩ := runAction_stock_draw_inv h
    exact hsame hfs
  | waste_to_tableau pid i =>
    obtain ⟨dest, top, -, -, -, -, hfs, -⟩ := runAction_w2t_inv h
    exact hsame hfs
  | waste_to_foundation pid i =>
    obtain ⟨f, top, hf, -, hc, -, hfs, -⟩ := runAction_w2f_inv h
    exact hset i f top hf hc hfs
  | tableau_to_tableau pid fromIdx toIdx cid =>
    obtain ⟨fromPile, toPile, idx, m0, -, -, -, -, -, -, -, hfs, -⟩ :=
      runAction_t2t_inv h
    exact hsame hfs
  | tableau_to_foundation pid fromIdx fIdx =>
    obtain ⟨fromPile, f, top, -, hf, -, -, hc, -, hfs, -⟩ := runAction_t2f_inv h
    exact hset fIdx f top hf hc hfs
  | nerts_to_tableau pid i =>
    obtain ⟨dest, top, -, -, -, -, -, hfs, -⟩ := runAction_n2t_inv h
    exact hsame hfs
  | nerts_to_foundation pid i =>
    obtain ⟨f, top, hf, -, -, hc, -, hfs, -⟩ := runAction_n2f_inv h
    exact hset i f top hf hc hfs

/-- Appending a single legally placed card keeps a column well-chained. -/
theorem chain_append_single {l : List NertsCard} {c : NertsCard} {b : Bool}
    (h : List.Chain' tabAdj l) (hc : canPlaceOnTableau l.getLast? c b = true) :
    List.Chain' tabAdj (l ++ [c]) := by
  rw [List.chain'_append]
  refine ⟨h, List.chain'_singleton _, ?_⟩
  intro x hx y hy
  simp only [List.head?_cons, Option.mem_def, Option.some.injEq] at hy
  subst hy
  rw [Option.mem_def] at hx
  rw [hx] at hc
  exact (canPlaceOnTableau_some_iff x c b).mp hc

/-- Card conservation for a single accepted action: the acting player's
containers plus the foundation pool hold the same number of cards before
and after.  The chain hypothesis rules out a self-append of a tableau run
onto its own column. -/
theorem runAction_count {player : NertsPlayerState}
    {fs fs' : List NertsFoundationPile} {p : NertsPlayerState} {d : Int}
    {a : NertsAction} (h : runAction player fs a = some (p, fs', d))
    (hch : ∀ col ∈ player.tableau, List.Chain' tabAdj col) :
    playerCardCount p + (fs'.map fun f => f.cards.length).sum =
      playerCardCount player + (fs.map fun f => f.cards.length).sum := by
  cases a with
  | stock_draw pid =>
    obtain ⟨hfs, -, hcases⟩ := runAction_stock_draw_inv h
    subst hfs
    rcases hcases with ⟨hpos, hp⟩ | ⟨hstock, hwaste, hp⟩ <;> subst hp
    · have hk : min 3 player.stock.length ≤ player.stock.length :=
        Nat.min_le_right _ _
      simp only [playerCardCount, List.length_take, List.length_append,
        List.length_map, List.length_reverse, List.length_drop]
      omega
    · simp only [playerCardCount, List.length_map, List.length_reverse,
        List.length_nil, hstock]
      omega
  | waste_to_tableau pid i =>
    obtain ⟨dest, top, hdest, htop, hc, hp, hfs, -⟩ := runAction_w2t_inv h
    subst hp hfs
    have hmap : (player.tableau.map List.length)[i]? = some dest.length := by
      rw [List.getElem?_map, hdest]; rfl
    have hsum : ((player.tableau.set i (dest ++ [top])).map List.length).sum +
        dest.length =
        (player.tableau.map List.length).sum + (dest ++ [top]).length := by
      rw [List.map_set]
      exact sum_set_get _ i dest.length _ hmap
    have hwlen : 0 < player.waste.length := getLast?_some_pos htop
    simp only [List.length_append, List.length_singleton] at hsum
    simp only [playerCardCount, List.length_dropLast]
    omega
  | waste_to_foundation pid i =>
    obtain ⟨f, top, hf, htop, hc, hp, hfs, -⟩ := runAction_w2f_inv h
    subst hp hfs
    have hmap : (fs.map fun f => f.cards.length)[i]? = some f.cards.length := by
      rw [List.getElem?_map, hf]; rfl
    have hsum : ((fs.set i (foundationPush f top)).map
        fun f => f.cards.length).sum + f.cards.length =
        (fs.map fun f => f.cards.length).sum +
          (foundationPush f top).cards.length := by
      rw [List.map_set]
      exact sum_set_get _ i f.cards.length _ hmap
    have hpush : (foundationPush f top).cards.length = f.cards.length + 1 := by
      simp [foundationPush]
    have hwlen : 0 < player.waste.length := getLast?_some_pos htop
    rw [hpush] at hsum
    simp only [playerCardCount, List.length_dropLast]
    omega
  | tableau_to_tableau pid fromIdx toIdx cid =>
    obtain ⟨fromPile, toPile, idx, m0, hfrom, hto, hidx, hm0, hup, hc, hp, hfs, -⟩ :=
      runAction_t2t_inv h
    subst hp hfs
    by_cases hft : fromIdx = toIdx
    · exfalso
      subst hft
      rw [hfrom] at hto
      injection hto with hto
      subst hto
      cases hlast : fromPile.getLast? with
      | none =>
        rw [List.getLast?_eq_none_iff.mp hlast] at hm0
        simp at hm0
      | some lastc =>
        rw [hlast] at hc
        exact no_self_place (hch fromPile (getElem?_some_mem hfrom)) hm0 hlast hc
    · have hidxlt : idx < fromPile.length := by
        by_contra hge
        rw [List.drop_eq_nil_of_le (by omega)] at hm0
        simp at hm0
      have hnf : (flipLastIfHidden (fromPile.take idx)).length = idx := by
        rw [flipLastIfHidden_length, List.length_take]
        omega
      have hmap1 : (player.tableau.map List.length)[fromIdx]? =
          some fromPile.length := by
        rw [List.getElem?_map, hfrom]; rfl
      have hsum1 : ((player.tableau.set fromIdx
          (flipLastIfHidden (fromPile.take idx))).map List.length).sum +
          fromPile.length =
          (player.tableau.map List.length).sum + idx := by
        rw [List.map_set, hnf]
        exact sum_set_get _ fromIdx fromPile.length _ hmap1
      have hmap2 : ((player.tableau.set fromIdx
          (flipLastIfHidden (fromPile.take idx))).map List.length)[toIdx]? =
          some toPile.length := by
        rw [List.map_set, List.getElem?_set_ne hft, List.getElem?_map, hto]
        rfl
      have hsum2 : (((player.tableau.set fromIdx
          (flipLastIfHidden (fromPile.take idx))).set toIdx
            (toPile ++ fromPile.drop idx)).map List.length).sum +
          toPile.length =
          ((player.tableau.set fromIdx
            (flipLastIfHidden (fromPile.take idx))).map List.length).sum +
            (toPile ++ fromPile.drop idx).length := by
        rw [List.map_set]
        exact sum_set_get _ toIdx toPile.length _ hmap2
      simp only [List.length_append, List.length_drop] at hsum2
      simp only [playerCardCount]
      omega
  | tableau_to_foundation pid fromIdx fIdx =>
    obtain ⟨fromPile, f, top, hfrom, hf, htop, hup, hc, hp, hfs, -⟩ :=
      runAction_t2f_inv h
    subst hp hfs
    have hflen : 0 < fromPile.length := getLast?_some_pos htop
    have hmap1 : (player.tableau.map List.length)[fromIdx]? =
        some fromPile.length := by
      rw [List.getElem?_map, hfrom]; rfl
    have hnf : (flipLastIfHidden fromPile.dropLast).length =
        fromPile.length - 1 := by
      rw [flipLastIfHidden_length, List.length_dropLast]
    have hsum1 : ((player.tableau.set fromIdx
        (flipLastIfHidden fromPile.dropLast)).map List.length).sum +
        fromPile.length =
        (player.tableau.map List.length).sum + (fromPile.length - 1) := by
      rw [List.map_set, hnf]
      exact sum_set_get _ fromIdx fromPile.length _ hmap1
    have hmap2 : (fs.map fun f => f.cards.length)[fIdx]? =
        some f.cards.length := by
      rw [List.getElem?_map, hf]; rfl
    have hsum2 : ((fs.set fIdx (foundationPush f top)).map
        fun f => f.cards.length).sum + f.cards.length =
        (fs.map fun f => f.cards.length).sum + (f.cards.length + 1) := by
      rw [List.map_set]
      have := sum_set_get _ fIdx f.cards.length
        ((foundationPush f top).cards.length) hmap2
      simpa [foundationPush] using this
    simp only [playerCardCount]
    omega
  | nerts_to_tableau pid i =>
    obtain ⟨dest, top, hdest, htop, hup, hc, hp, hfs, -⟩ := runAction_n2t_inv h
    subst hp hfs
    have hnlen : 0 < player.nertsPile.length := getLast?_some_pos htop
    have hmap : (player.tableau.map List.length)[i]? = some dest.length := by
      rw [List.getElem?_map, hdest]; rfl
    have hsum : ((player.tableau.set i (dest ++ [top])).map List.length).sum +
        dest.length =
        (player.tableau.map List.length).sum + (dest ++ [top]).length := by
      rw [List.map_set]
      exact sum_set_get _ i dest.length _ hmap
    simp only [List.length_append, List.length_singleton] at hsum
    simp only [playerCardCount, flipLastIfHidden_length, List.length_dropLast]
    omega
  | nerts_to_foundation pid i =>
    obtain ⟨f, top, hf, htop, hup, hc, hp, hfs, -⟩ := runAction_n2f_inv h
    subst hp hfs
    have hnlen : 0 < player.nertsPile.length := getLast?_some_pos htop
    have hmap : (fs.map fun f => f.cards.length)[i]? = some f.cards.length := by
      rw [List.getElem?_map, hf]; rfl
    have hsum : ((fs.set i (foundationPush f top)).map
        fun f => f.cards.length).sum + f.cards.length =
        (fs.map fun f => f.cards.length).sum + (f.cards.length + 1) := by
      rw [List.map_set]
      have := sum_set_get _ i f.cards.length
        ((foundationPush f top).cards.length) hmap
      simpa [foundationPush] using this
    simp only [playerCardCount, flipLastIfHidden_length, List.length_dropLast]
    omega

/-- Tableau cards stay face-up: every card an action pushes onto a tableau
column is face-up (waste cards by the waste invariant, Nerts tops by the
explicit guard, tableau runs by the tableau invariant). -/
theorem runAction_tabUp {player : NertsPlayerState}
    {fs fs' : List NertsFoundationPile} {p : NertsPlayerState} {d : Int}
    {a : NertsAction} (h : runAction player fs a = some (p, fs', d))
    (htab : ∀ col ∈ player.tableau, ∀ c ∈ col, c.faceUp = true)
    (hwaste : ∀ c ∈ player.waste, c.faceUp = true) :
    ∀ col ∈ p.tableau, ∀ c ∈ col, c.faceUp = true := by
  cases a with
  | stock_draw pid =>
    obtain ⟨-, -, hcases⟩ := runAction_stock_draw_inv h
    rcases hcases with ⟨-, hp⟩ | ⟨-, -, hp⟩ <;> subst hp <;> exact htab
  | waste_to_tableau pid i =>
    obtain ⟨dest, top, hdest, htop, -, hp, -, -⟩ := runAction_w2t_inv h
    subst hp
    intro col hcol
    rcases List.mem_or_eq_of_mem_set hcol with hcol | rfl
    · exact htab col hcol
    · intro c hc
      rcases List.mem_append.mp hc with hc | hc
      · exact htab dest (getElem?_some_mem hdest) c hc
      · simp only [List.mem_singleton] at hc
        subst hc
        exact hwaste c (getLast?_some_mem htop)
  | waste_to_foundation pid i =>
    obtain ⟨f, top, -, -, -, hp, -, -⟩ := runAction_w2f_inv h
    subst hp
    exact htab
  | tableau_to_tableau pid fromIdx toIdx cid =>
    obtain ⟨fromPile, toPile, idx, m0, hfrom, hto, -, -, -, -, hp, -, -⟩ :=
      runAction_t2t_inv h
    subst hp
    intro col hcol
    rcases List.mem_or_eq_of_mem_set hcol with hcol | rfl
    · rcases List.mem_or_eq_of_mem_set hcol with hcol | rfl
      · exact htab col hcol
      · have hall : ∀ c ∈ fromPile.take idx, c.faceUp = true := fun c hc =>
          htab fromPile (getElem?_some_mem hfrom) c (List.mem_of_mem_take hc)
        rw [flipLastIfHidden_of_allUp hall]
        exact hall
    · intro c hc
      rcases List.mem_append.mp hc with hc | hc
      · exact htab toPile (getElem?_some_mem hto) c hc
      · exact htab fromPile (getElem?_some_mem hfrom) c (List.mem_of_mem_drop hc)
  | tableau_to_foundation pid fromIdx fIdx =>
    obtain ⟨fromPile, f, top, hfrom, -, -, -, -, hp, -, -⟩ := runAction_t2f_inv h
    subst hp
    intro col hcol
    rcases List.mem_or_eq_of_mem_set hcol with hcol | rfl
    · exact htab col hcol
    · have hall : ∀ c ∈ fromPile.dropLast, c.faceUp = true := fun c hc =>
        htab fromPile (getElem?_some_mem hfrom) c (List.mem_of_mem_dropLast hc)
      rw [flipLastIfHidden_of_allUp hall]
      exact hall
  | nerts_to_tableau pid i =>
    obtain ⟨dest, top, hdest, -, hup, -, hp, -, -⟩ := runAction_n2t_inv h
    subst hp
    intro col hcol
    rcases List.mem_or_eq_of_mem_set hcol with hcol | rfl
    · exact htab col hcol
    · intro c hc
      rcases List.mem_append.mp hc with hc | hc
      · exact htab dest (getElem?_some_mem hdest) c hc
      · simp only [List.mem_singleton] at hc
        subst hc
        exact hup
  | nerts_to_foundation pid i =>
    obtain ⟨f, top, -, -, -, -, hp, -, -⟩ := runAction_n2f_inv h
    subst hp
    exact htab

/-- Waste cards stay face-up: every card drawn from stock to waste is
flipped face-up, and recycling empties the waste. -/
theorem runAction_wasteUp {player : NertsPlayerState}
    {fs fs' : List NertsFoundationPile} {p : NertsPlayerState} {d : Int}
    {a : NertsAction} (h : runAction player fs a = some (p, fs', d))
    (hwaste : ∀ c ∈ player.waste, c.faceUp = true) :
    ∀ c ∈ p.waste, c.faceUp = true := by
  cases a with
  | stock_draw pid =>
    obtain ⟨-, -, hcases⟩ := runAction_stock_draw_inv h
    rcases hcases with ⟨-, hp⟩ | ⟨-, -, hp⟩ <;> subst hp
    · intro c hc
      rcases List.mem_append.mp hc with hc | hc
      · exact hwaste c hc
      · obtain ⟨x, -, rfl⟩ := List.mem_map.mp hc
        rfl
    · intro c hc
      simp at hc
  | waste_to_tableau pid i =>
    obtain ⟨dest, top, -, -, -, hp, -, -⟩ := runAction_w2t_inv h
    subst hp
    exact fun c hc => hwaste c (List.mem_of_mem_dropLast hc)
  | waste_to_foundation pid i =>
    obtain ⟨f, top, -, -, -, hp, -, -⟩ := runAction_w2f_inv h
    subst hp
    exact fun c hc => hwaste c (List.mem_of_mem_dropLast hc)
  | tableau_to_tableau pid fromIdx toIdx cid =>
    obtain ⟨fromPile, toPile, idx, m0, -, -, -, -, -, -, hp, -, -⟩ :=
      runAction_t2t_inv h
    subst hp
    exact hwaste
  | tableau_to_foundation pid fromIdx fIdx =>
    obtain ⟨fromPile, f, top, -, -, -, -, -, hp, -, -⟩ := runAction_t2f_inv h
    subst hp
    exact hwaste
  | nerts_to_tableau pid i =>
    obtain ⟨dest, top, -, -, -, -, hp, -, -⟩ := runAction_n2t_inv h
    subst hp
    exact hwaste
  | nerts_to_foundation pid i =>
    obtain ⟨f, top, -, -, -, -, hp, -, -⟩ := runAction_n2f_inv h
    subst hp
    exact hwaste

/-- Tableau columns stay alternating-color strictly-descending chains. -/
theorem runAction_tabChain {player : NertsPlayerState}
    {fs fs' : List NertsFoundationPile} {p : NertsPlayerState} {d : Int}
    {a : NertsAction} (h : runAction player fs a = some (p, fs', d))
    (hch : ∀ col ∈ player.tableau, List.Chain' tabAdj col) :
    ∀ col ∈ p.tableau, List.Chain' tabAdj col := by
  cases a with
  | stock_draw pid =>
    obtain ⟨-, -, hcases⟩ := runAction_stock_draw_inv h
    rcases hcases with ⟨-, hp⟩ | ⟨-, -, hp⟩ <;> subst hp <;> exact hch
  | waste_to_tableau pid i =>
    obtain ⟨dest, top, hdest, -, hc, hp, -, -⟩ := runAction_w2t_inv h
    subst hp
    intro col hcol
    rcases List.mem_or_eq_of_mem_set hcol with hcol | rfl
    · exact hch col hcol
    · exact chain_append_single (hch dest (getElem?_some_mem hdest)) hc
  | waste_to_foundation pid i =>
    obtain ⟨f, top, -, -, -, hp, -, -⟩ := runAction_w2f_inv h
    subst hp
    exact hch
  | tableau_to_tableau pid fromIdx toIdx cid =>
    obtain ⟨fromPile, toPile, idx, m0, hfrom, hto, -, hm0, -, hc, hp, -, -⟩ :=
      runAction_t2t_inv h
    subst hp
    intro col hcol
    rcases List.mem_or_eq_of_mem_set hcol with hcol | rfl
    · rcases List.mem_or_eq_of_mem_set hcol with hcol | rfl
      · exact hch col hcol
      · exact chain_flipLastIfHidden
          (List.Chain'.take (hch fromPile (getElem?_some_mem hfrom)) idx)
    · rw [List.chain'_append]
      refine ⟨hch toPile (getElem?_some_mem hto),
        List.Chain'.drop (hch fromPile (getElem?_some_mem hfrom)) idx, ?_⟩
      intro x hx y hy
      rw [Option.mem_def] at hx hy
      rw [hm0] at hy
      injection hy with hy
      subst hy
      rw [hx] at hc
      exact (canPlaceOnTableau_some_iff x m0 false).mp hc
  | tableau_to_foundation pid fromIdx fIdx =>
    obtain ⟨fromPile, f, top, hfrom, -, -, -, -, hp, -, -⟩ := runAction_t2f_inv h
    subst hp
    intro col hcol
    rcases List.mem_or_eq_of_mem_set hcol with hcol | rfl
    · exact hch col hcol
    · refine chain_flipLastIfHidden ?_
      rw [List.dropLast_eq_take]
      exact List.Chain'.take (hch fromPile (getElem?_some_mem hfrom)) _
  | nerts_to_tableau pid i =>
    obtain ⟨dest, top, hdest, -, -, hc, hp, -, -⟩ := runAction_n2t_inv h
    subst hp
    intro col hcol
    rcases List.mem_or_eq_of_mem_set hcol with hcol | rfl
    · exact hch col hcol
    · exact chain_append_single (hch dest (getElem?_some_mem hdest)) hc
  | nerts_to_foundation pid i =>
    obtain ⟨f, top, -, -, -, -, hp, -, -⟩ := runAction_n2f_inv h
    subst hp
    exact hch

theorem finalize_players (s : NertsState) (i : Nat) (p : NertsPlayerState)
    (fs' : List NertsFoundationPile) (d : Int) :
    (finalize s i p fs' d).players =
      s.players.set i { p with score := p.score + d } := rfl

theorem finalize_foundations (s : NertsState) (i : Nat) (p : NertsPlayerState)
    (fs' : List NertsFoundationPile) (d : Int) :
    (finalize s i p fs' d).foundations = fs' := rfl

theorem finalize_startedAt (s : NertsState) (i : Nat) (p : NertsPlayerState)
    (fs' : List NertsFoundationPile) (d : Int) :
    (finalize s i p fs' d).startedAt = s.startedAt := rfl

/-- One reducer step preserves the game invariant. -/
theorem wf_step {s : NertsState} (a : NertsAction) (hwf : WF s) :
    WF (applyNertsAction s a) := by
  cases hacc : acceptedBy s a with
  | false => rw [apply_not_accepted hacc]; exact hwf
  | true =>
    obtain ⟨hfin, i, player, p, fs', d, hidx, hget, hpid, hrun, happly⟩ :=
      apply_accepted hacc
    rw [happly]
    have hplmem : player ∈ s.players := getElem?_some_mem hget
    have hchp : ∀ col ∈ player.tableau, List.Chain' tabAdj col :=
      hwf.tabChain player hplmem
    have htabp : ∀ col ∈ player.tableau, ∀ c ∈ col, c.faceUp = true :=
      hwf.tabUp player hplmem
    have hwup : ∀ c ∈ player.waste, c.faceUp = true :=
      hwf.wasteUp player hplmem
    have hflen : fs'.length = s.foundations.length :=
      (runAction_fields hrun).2.2.2
    constructor
    · -- card conservation
      unfold totalCards
      rw [finalize_players, finalize_foundations, List.length_set]
      have hpcc : playerCardCount { p with score := p.score + d } =
          playerCardCount p := rfl
      have hmap : (s.players.map playerCardCount)[i]? =
          some (playerCardCount player) := by
        rw [List.getElem?_map, hget]; rfl
      have hsum : ((s.players.set i { p with score := p.score + d }).map
          playerCardCount).sum + playerCardCount player =
          (s.players.map playerCardCount).sum + playerCardCount p := by
        rw [List.map_set, hpcc]
        exact sum_set_get _ i (playerCardCount player) _ hmap
      have hcons := runAction_count hrun hchp
      have htot := hwf.count
      unfold totalCards at htot
      omega
    · -- foundations well-formed
      rw [finalize_foundations]
      intro f hf
      obtain ⟨j, hj⟩ := List.mem_iff_getElem?.mp hf
      have hjlt : j < fs'.length := by
        by_contra hge
        rw [List.getElem?_eq_none (by omega)] at hj
        exact Option.noConfusion hj
      have hjlt' : j < s.foundations.length := by omega
      have hg : s.foundations[j]? = some s.foundations[j] :=
        List.getElem?_eq_getElem hjlt'
      obtain ⟨f'', hf'', hcase⟩ := runAction_foundations hrun j _ hg
      rw [hj] at hf''
      injection hf'' with hf''
      subst hf''
      have hgok : FoundationOk s.foundations[j] :=
        hwf.found _ (getElem?_some_mem hg)
      rcases hcase with rfl | ⟨top, hc, rfl⟩
      · exact hgok
      · exact foundationOk_push hgok hc
    · -- tableau cards face-up
      rw [finalize_players]
      intro q hq
      rcases List.mem_or_eq_of_mem_set hq with hq | rfl
      · exact hwf.tabUp q hq
      · exact fun col hcol => runAction_tabUp hrun htabp hwup col hcol
    · -- waste cards face-up
      rw [finalize_players]
      intro q hq
      rcases List.mem_or_eq_of_mem_set hq with hq | rfl
      · exact hwf.wasteUp q hq
      · exact fun c hc => runAction_wasteUp hrun hwup c hc
    · -- tableau chains
      rw [finalize_players]
      intro q hq
      rcases List.mem_or_eq_of_mem_set hq with hq | rfl
      · exact hwf.tabChain q hq
      · exact fun col hcol => runAction_tabChain hrun hchp col hcol

theorem listSwap_length {α : Type} (l : List α) (i j : Nat) :
    (listSwap l i j).length = l.length := by
  unfold listSwap
  split
  · rw [List.length_set, List.length_set]
  · rfl

theorem fyLoop_length {α : Type} :
    ∀ (i : Nat) (rnds : List Nat) (copy : List α),
      (fyLoop rnds copy i).length = copy.length := by
  intro i
  induction i with
  | zero => intro rnds copy; rfl
  | succ m ih =>
    intro rnds copy
    unfold fyLoop
    rw [ih, listSwap_length]

theorem shuffle_length {α : Type} (rnds : List Nat) (deck : List α) :
    (shuffle rnds deck).length = deck.length := fyLoop_length _ _ _

theorem createDeck_length : createDeck.length = 52 := rfl

theorem playerCardCount_initPlayer (pid : String) (rnds : List Nat) :
    playerCardCount (initPlayer pid rnds) = 52 := by
  unfold playerCardCount initPlayer
  simp only [List.length_map, List.enum_length, List.length_take,
    List.length_drop, shuffle_length, createDeck_length, List.map_cons,
    List.map_nil, List.sum_cons, List.sum_nil, List.length_singleton,
    List.length_nil]
  omega

theorem wf_init (config : NertsConfig) (rnds : List (List Nat)) (now : Nat) :
    WF (initNerts config rnds now) := by
  constructor
  · -- count
    unfold totalCards initNerts
    simp only [List.map_replicate, List.sum_replicate, smul_eq_mul,
      Nat.mul_zero, Nat.add_zero, List.length_map, List.enum_length]
    rw [sum_map_const _ _ 52]
    · simp only [List.length_map, List.enum_length, List.length_nil,
        Nat.mul_zero, Nat.add_zero]
    · intro x hx
      obtain ⟨kp, -, rfl⟩ := List.mem_map.mp hx
      exact playerCardCount_initPlayer _ _
  · -- foundations
    unfold initNerts
    intro f hf
    have := List.eq_of_mem_replicate hf
    subst this
    exact ⟨fun _ => rfl, by simp, by simp⟩
  · -- tableau face-up
    unfold initNerts
    intro q hq
    obtain ⟨kp, -, rfl⟩ := List.mem_map.mp hq
    unfold initPlayer
    intro col hcol
    simp only [List.mem_cons, List.not_mem_nil, or_false] at hcol
    rcases hcol with rfl | rfl | rfl | rfl <;>
      · intro c hc
        simp only [List.mem_singleton] at hc
        subst hc
        rfl
  · -- waste face-up
    unfold initNerts
    intro q hq
    obtain ⟨kp, -, rfl⟩ := List.mem_map.mp hq
    intro c hc
    simp [initPlayer] at hc
  · -- tableau chains
    unfold initNerts
    intro q hq
    obtain ⟨kp, -, rfl⟩ := List.mem_map.mp hq
    unfold initPlayer
    intro col hcol
    simp only [List.mem_cons, List.not_mem_nil, or_false] at hcol
    rcases hcol with rfl | rfl | rfl | rfl <;> exact List.chain'_singleton _

theorem wf_foldl (l : List NertsAction) (t : NertsState) (hwf : WF t) :
    WF (l.foldl applyNertsAction t) := by
  induction l generalizing t with
  | nil => exact hwf
  | cons a l ih =>
    rw [List.foldl_cons]
    exact ih _ (wf_step a hwf)

/-- Every reachable state satisfies the game invariant. -/
theorem wf_reachable {s : NertsState} (h : Reachable s) : WF s := by
  obtain ⟨config, rnds, now, acts, rfl⟩ := h
  exact wf_foldl acts _ (wf_init config rnds now)

/-- Every action the reducer accepts satisfies the spec's §4.3 precondition
table. -/
theorem accepted_specPrecond {s : NertsState} {a : NertsAction}
    (h : acceptedBy s a = true) : specPrecond s a = true := by
  obtain ⟨hfin, i, player, p, fs', d, hidx, hget, hpid, hrun, -⟩ :=
    apply_accepted h
  obtain ⟨x, hx, hpx, hfind⟩ := findIdx?_some_get hidx
  rw [hget] at hx
  injection hx with hx
  subst hx
  unfold specPrecond
  rw [if_neg (by rw [hfin]; simp)]
  simp only [hfind]
  cases a with
  | stock_draw pid =>
    obtain ⟨-, -, hcases⟩ := runAction_stock_draw_inv hrun
    rcases hcases with ⟨hpos, -⟩ | ⟨hstock, hwaste, -⟩
    · have hne : player.stock ≠ [] := by
        intro hnil
        rw [hnil] at hpos
        simp at hpos
      simp [List.isEmpty_iff, hne]
    · simp [List.isEmpty_iff, hwaste]
  | waste_to_tableau pid i =>
    obtain ⟨dest, top, hdest, htop, hc, -, -, -⟩ := runAction_w2t_inv hrun
    simp only [hdest, htop]
    exact hc
  | waste_to_foundation pid i =>
    obtain ⟨f, top, hf, htop, hc, -, -, -⟩ := runAction_w2f_inv hrun
    simp only [hf, htop]
    exact hc
  | tableau_to_tableau pid fromIdx toIdx cid =>
    obtain ⟨fromPile, toPile, idx, m0, hfrom, hto, hidx2, hm0, hup, hc, -, -, -⟩ :=
      runAction_t2t_inv hrun
    simp only [hfrom, hto, hidx2, hm0]
    simp [hup, hc]
  | tableau_to_foundation pid fromIdx fIdx =>
    obtain ⟨fromPile, f, top, hfrom, hf, htop, hup, hc, -, -, -⟩ :=
      runAction_t2f_inv hrun
    simp only [hfrom, hf, htop]
    simp [hup, hc]
  | nerts_to_tableau pid i =>
    obtain ⟨dest, top, hdest, htop, hup, hc, -, -, -⟩ := runAction_n2t_inv hrun
    simp only [hdest, htop]
    simp [hup, hc]
  | nerts_to_foundation pid i =>
    obtain ⟨f, top, hf, htop, hup, hc, -, -, -⟩ := runAction_n2f_inv hrun
    simp only [hf, htop]
    simp [hup, hc]

/-- C1: an action whose §4.3 precondition is unmet — a finished game, an
unknown `playerId`, an out-of-range tableau or foundation index, an empty
source pile, or an illegal placement — is a silent no-op: `applyNertsAction`
returns the input state itself (hence deep-equal containers and scores), and
being a total function it can never raise. -/
theorem claim_C1_illegal_noop (s : NertsState) (a : NertsAction)
    (h : specPrecond s a = false) : applyNertsAction s a = s := by
  cases hacc : acceptedBy s a with
  | false => exact apply_not_accepted hacc
  | true =>
    rw [accepted_specPrecond hacc] at h
    exact Bool.noConfusion h

/-! ### Concrete example states used by the witnesses -/

/-- A face-up ace of hearts. -/
def aceHCard : NertsCard :=
  { suit := .hearts, rank := .ace, id := "a-AH-0", ownerId := "a", faceUp := true }

/-- A player one card away from calling Nerts. -/
def exWinPlayer : NertsPlayerState :=
  { id := "a", nertsPile := [aceHCard], tableau := [[], [], [], []],
    stock := [], waste := [], score := 0 }

/-- A one-player state whose next `nerts_to_foundation` wins the game. -/
def exWin : NertsState :=
  { players := [exWinPlayer], foundations := [{ suit := none, cards := [] }],
    startedAt := 0, finished := false, winnerId := none }

/-- The winning action on `exWin`. -/
def exWinAct : NertsAction := .nerts_to_foundation "a" 0

/-- A finished state. -/
def exFin : NertsState :=
  { players := [], foundations := [], startedAt := 0, finished := true,
    winnerId := some "a" }

theorem claim_C1_illegal_noop_witness :
    applyNertsAction exWin (.stock_draw "a") = exWin :=
  claim_C1_illegal_noop exWin (.stock_draw "a") rfl

/-- C2: an accepted action that empties the acting player's Nerts pile sets
`finished` and `winnerId` (to the acting player) atomically in the same
transition; an accepted action that does not leaves both untouched; and once
`finished` every action is a no-op — so along any game's action sequence the
winner is set at most once. -/
theorem claim_C2_win_exclusive (s : NertsState) (a : NertsAction) :
    (s.finished = true → applyNertsAction s a = s) ∧
    (acceptedBy s a = true →
      s.finished = false ∧
      ∀ (i : Nat) (p' : NertsPlayerState),
        s.players.findIdx? (fun q => q.id == a.playerId) = some i →
        (applyNertsAction s a).players[i]? = some p' →
        ((p'.nertsPile.length = 0 →
            (applyNertsAction s a).finished = true ∧
            (applyNertsAction s a).winnerId = some a.playerId) ∧
         (p'.nertsPile.length ≠ 0 →
            (applyNertsAction s a).finished = s.finished ∧
            (applyNertsAction s a).winnerId = s.winnerId))) := by
  constructor
  · intro h
    unfold applyNertsAction
    rw [if_pos h]
  · intro hacc
    obtain ⟨hfin, i0, player, p, fs', d, hidx0, hget0, hpid, hrun, happly⟩ :=
      apply_accepted hacc
    refine ⟨hfin, ?_⟩
    intro i p' hidx hget
    rw [hidx0] at hidx
    injection hidx with hi
    subst hi
    have hilt : i0 < s.players.length := by
      by_contra hge
      rw [List.getElem?_eq_none (by omega)] at hget0
      exact Option.noConfusion hget0
    rw [happly, finalize_players, List.getElem?_set_self hilt] at hget
    injection hget with hget
    subst hget
    have hid : p.id = a.playerId := (runAction_fields hrun).1.trans hpid
    constructor
    · intro h0
      have h0' : p.nertsPile.length = 0 := h0
      rw [happly]
      constructor
      · simp [finalize, hfin, h0']
      · simp [finalize, hfin, h0', hid]
    · intro hne
      have hne' : ¬p.nertsPile.length = 0 := hne
      rw [happly]
      constructor
      · simp [finalize, hfin, hne']
      · simp [finalize, hfin, hne']

theorem claim_C2_win_exclusive_witness :
    applyNertsAction exFin exWinAct = exFin ∧
    (applyNertsAction exWin exWinAct).finished = true ∧
    (applyNertsAction exWin exWinAct).winnerId = some "a" := by
  refine ⟨(claim_C2_win_exclusive exFin exWinAct).1 rfl, ?_⟩
  obtain ⟨-, h2⟩ := (claim_C2_win_exclusive exWin exWinAct).2 rfl
  exact (h2 0 _ rfl rfl).1 rfl

/-- C3: card conservation — in every state reachable from `initNerts` by any
sequence of `applyNertsAction` steps, the total card count over all players'
nertsPile, tableau, stock and waste plus all foundation slots is `52 ×`
the number of players; no action duplicates or drops a card. -/
theorem claim_C3_conservation (s : NertsState) (h : Reachable s) :
    totalCards s = 52 * s.players.length :=
  (wf_reachable h).count

/-- A concrete two-player initial deal. -/
def exInit : NertsState := initNerts { playerIds := ["a", "b"] } [[], []] 0

theorem claim_C3_conservation_witness :
    totalCards exInit = 52 * exInit.players.length :=
  claim_C3_conservation exInit ⟨{ playerIds := ["a", "b"] }, [[], []], 0, [], rfl⟩

/-- C4: foundation rules — an empty slot accepts exactly an Ace, a non-empty
slot accepts exactly the next rank of its top card's suit; a slot's suit,
once set, survives every action and the slot's cards only ever grow by
appending; and in every reachable state a slot's cards read `A, 2, ..., n`
of the single suit recorded in the slot. -/
theorem claim_C4_foundation_rules :
    (∀ (f : NertsFoundationPile) (c : NertsCard), f.cards = [] →
      (canPlaceOnFoundation f c = true ↔ getRankValue c.rank = 1)) ∧
    (∀ (f : NertsFoundationPile) (c top : NertsCard),
      f.cards.getLast? = some top →
      (canPlaceOnFoundation f c = true ↔
        top.suit = c.suit ∧ getRankValue c.rank = getRankValue top.rank + 1)) ∧
    (∀ (s : NertsState) (a : NertsAction) (i : Nat)
      (f f' : NertsFoundationPile) (u : Suit),
      s.foundations[i]? = some f → f.suit = some u →
      (applyNertsAction s a).foundations[i]? = some f' →
      f'.suit = some u ∧ f'.cards.take f.cards.length = f.cards) ∧
    (∀ s : NertsState, Reachable s → ∀ f ∈ s.foundations,
      (∀ c ∈ f.cards, f.suit = some c.suit) ∧
      f.cards.map (fun c => getRankValue c.rank) =
        List.range' 1 f.cards.length) := by
  refine ⟨?_, ?_, ?_, ?_⟩
  · intro f c hnil
    have hlast : f.cards.getLast? = none := by rw [hnil]; rfl
    rw [canPlaceOnFoundation_iff]
    simp [hlast]
  · intro f c top hlast
    rw [canPlaceOnFoundation_iff]
    simp [hlast]
  · intro s a i f f' u hf hu hf'
    cases hacc : acceptedBy s a with
    | false =>
      rw [apply_not_accepted hacc, hf] at hf'
      injection hf' with hf'
      subst hf'
      exact ⟨hu, List.take_length f.cards⟩
    | true =>
      obtain ⟨hfin, i0, player, p, fs', d, hidx, hget, hpid, hrun, happly⟩ :=
        apply_accepted hacc
      rw [happly, finalize_foundations] at hf'
      obtain ⟨f'', hf'', hcase⟩ := runAction_foundations hrun i f hf
      rw [hf'] at hf''
      injection hf'' with hf''
      subst hf''
      rcases hcase with heq | ⟨top, -, heq⟩
      · rw [heq]
        exact ⟨hu, List.take_length f.cards⟩
      · rw [heq]
        refine ⟨by simp [foundationPush, hu], ?_⟩
        simp only [foundationPush]
        exact List.take_left f.cards [top]
  · intro s hs f hf
    obtain ⟨-, h2, h3⟩ := (wf_reachable hs).found f hf
    exact ⟨h2, h3⟩

/-- The shared-foundation slot after the winning ace move on `exWin`. -/
def exFW : NertsFoundationPile := { suit := some .hearts, cards := [aceHCard] }

/-- A two of hearts. -/
def twoHCard : NertsCard :=
  { suit := .hearts, rank := .r2, id := "a-2H-1", ownerId := "a", faceUp := true }

theorem claim_C4_foundation_rules_witness :
    canPlaceOnFoundation { suit := none, cards := [] } aceHCard = true ∧
    canPlaceOnFoundation exFW twoHCard = true ∧
    ((applyNertsAction (applyNertsAction exWin exWinAct)
        (.stock_draw "a")).foundations[0]?.map
      (fun f => f.suit) = some (some Suit.hearts)) ∧
    (List.map (fun c => getRankValue c.rank)
      (({ suit := none, cards := [] } : NertsFoundationPile)).cards =
      List.range' 1 0) := by
  refine ⟨?_, ?_, ?_, ?_⟩
  · exact (claim_C4_foundation_rules.1 { suit := none, cards := [] }
      aceHCard rfl).mpr rfl
  · exact (claim_C4_foundation_rules.2.1 exFW twoHCard aceHCard rfl).mpr
      ⟨rfl, rfl⟩
  · have h := (claim_C4_foundation_rules.2.2.1
      (applyNertsAction exWin exWinAct) (.stock_draw "a") 0 exFW exFW
      Suit.hearts rfl rfl rfl).1
    rw [show (applyNertsAction (applyNertsAction exWin exWinAct)
      (.stock_draw "a")).foundations[0]? = some exFW from rfl]
    rw [Option.map_some', h]
  · exact (claim_C4_foundation_rules.2.2.2 exInit
      ⟨{ playerIds := ["a", "b"] }, [[], []], 0, [], rfl⟩
      { suit := none, cards := [] } (by
        show _ ∈ (initNerts { playerIds := ["a", "b"] } [[], []] 0).foundations
        simp [initNerts])).2

/-- C5: tableau placement — an empty column accepts only a King from waste
or another tableau column (`allowAnyOnEmpty = false`), but any rank from the
Nerts pile (`nerts_to_tableau` passes `true`); a non-empty column accepts
exactly an opposite-color card of rank one less than its top, whatever the
source. -/
theorem claim_C5_tableau_rules :
    (∀ c : NertsCard, canPlaceOnTableau none c false = true ↔
      getRankValue c.rank = 13) ∧
    (∀ c : NertsCard, canPlaceOnTableau none c true = true) ∧
    (∀ (dt c : NertsCard) (b : Bool),
      canPlaceOnTableau (some dt) c b = true ↔
        (isRedSuit c.suit ≠ isRedSuit dt.suit ∧
          getRankValue c.rank + 1 = getRankValue dt.rank)) ∧
    (∀ (s : NertsState) (pid : String) (i idx : Nat)
      (player : NertsPlayerState) (top : NertsCard),
      s.finished = false →
      s.players.findIdx? (fun q => q.id == pid) = some idx →
      s.players[idx]? = some player →
      player.tableau[i]? = some [] →
      player.nertsPile.getLast? = some top →
      top.faceUp = true →
      acceptedBy s (.nerts_to_tableau pid i) = true) ∧
    (∀ (s : NertsState) (pid : String) (i idx : Nat)
      (player : NertsPlayerState) (top : NertsCard),
      s.finished = false →
      s.players.findIdx? (fun q => q.id == pid) = some idx →
      s.players[idx]? = some player →
      player.tableau[i]? = some [] →
      player.waste.getLast? = some top →
      (acceptedBy s (.waste_to_tableau pid i) = true ↔
        getRankValue top.rank = 13)) := by
  refine ⟨?_, ?_, ?_, ?_, ?_⟩
  · intro c
    simp [canPlaceOnTableau]
  · intro c
    rfl
  · intro dt c b
    exact canPlaceOnTableau_some_iff dt c b
  · intro s pid i idx player top hfin hidx hget hdest htop hup
    unfold acceptedBy
    rw [if_neg (by rw [hfin]; simp)]
    simp only [NertsAction.playerId]
    simp only [hidx, hget, runAction, hdest, htop, hup]
    simp [canPlaceOnTableau]
  · intro s pid i idx player top hfin hidx hget hdest htop
    constructor
    · intro hacc
      obtain ⟨-, i0, player0, p, fs', d, hidx0, hget0, -, hrun, -⟩ :=
        apply_accepted hacc
      simp only [NertsAction.playerId] at hidx0
      rw [hidx] at hidx0
      injection hidx0 with hi
      subst hi
      rw [hget] at hget0
      injection hget0 with hp
      subst hp
      obtain ⟨dest, top', hdest', htop', hc, -, -, -⟩ := runAction_w2t_inv hrun
      rw [hdest] at hdest'
      injection hdest' with hd
      subst hd
      rw [htop] at htop'
      injection htop' with ht
      subst ht
      simpa [canPlaceOnTableau] using hc
    · intro hrank
      unfold acceptedBy
      rw [if_neg (by rw [hfin]; simp)]
      simp only [NertsAction.playerId]
      simp only [hidx, hget, runAction, hdest, htop]
      simp [canPlaceOnTableau, hrank]

/-- A face-up two of spades. -/
def twoSCard : NertsCard :=
  { suit := .spades, rank := .r2, id := "a-2S-3", ownerId := "a", faceUp := true }

/-- A face-up king of spades. -/
def kingSCard : NertsCard :=
  { suit := .spades, rank := .king, id := "a-KS-2", ownerId := "a", faceUp := true }

/-- A player with an empty first tableau column, a Nerts-pile ace and a
waste-top king. -/
def exC5Player : NertsPlayerState :=
  { id := "a", nertsPile := [aceHCard], tableau := [[], [], [], []],
    stock := [], waste := [kingSCard], score := 0 }

/-- State exercising the empty-column rules. -/
def exC5 : NertsState :=
  { players := [exC5Player], foundations := [{ suit := none, cards := [] }],
    startedAt := 0, finished := false, winnerId := none }

theorem claim_C5_tableau_rules_witness :
    canPlaceOnTableau none kingSCard false = true ∧
    canPlaceOnTableau none aceHCard true = true ∧
    canPlaceOnTableau (some twoSCard) aceHCard false = true ∧
    acceptedBy exC5 (.nerts_to_tableau "a" 0) = true ∧
    acceptedBy exC5 (.waste_to_tableau "a" 0) = true := by
  refine ⟨?_, ?_, ?_, ?_, ?_⟩
  · exact (claim_C5_tableau_rules.1 kingSCard).mpr rfl
  · exact claim_C5_tableau_rules.2.1 aceHCard
  · exact (claim_C5_tableau_rules.2.2.1 twoSCard aceHCard false).mpr
      (by constructor <;> decide)
  · exact claim_C5_tableau_rules.2.2.2.1 exC5 "a" 0 0 exC5Player aceHCard
      rfl rfl rfl rfl rfl rfl
  · exact (claim_C5_tableau_rules.2.2.2.2 exC5 "a" 0 0 exC5Player kingSCard
      rfl rfl rfl rfl rfl).mpr rfl

/-- C6: `stock_draw` — with a non-empty stock, exactly `min(3, |stock|)`
cards move from the top of stock to the top of waste, reversed into draw
order and each flipped face-up, everything else untouched; with an empty
stock and non-empty waste, the whole waste is recycled face-down in reverse
order into stock and the waste empties; with both empty the action is a
silent no-op. -/
theorem claim_C6_stock_draw (s : NertsState) (pid : String) (i : Nat)
    (player : NertsPlayerState)
    (hfin : s.finished = false)
    (hidx : s.players.findIdx? (fun q => q.id == pid) = some i)
    (hget : s.players[i]? = some player) :
    (player.stock ≠ [] →
      ∀ p', (applyNertsAction s (.stock_draw pid)).players[i]? = some p' →
        p'.stock = player.stock.take
          (player.stock.length - min 3 player.stock.length) ∧
        p'.waste = player.waste ++
          (player.stock.drop
            (player.stock.length - min 3 player.stock.length)).reverse.map
            makeFaceUp ∧
        p'.nertsPile = player.nertsPile ∧ p'.tableau = player.tableau ∧
        p'.score = player.score) ∧
    (player.stock = [] → player.waste ≠ [] →
      ∀ p', (applyNertsAction s (.stock_draw pid)).players[i]? = some p' →
        p'.stock = player.waste.reverse.map (fun c => { c with faceUp := false }) ∧
        p'.waste = [] ∧ p'.nertsPile = player.nertsPile ∧
        p'.tableau = player.tableau ∧ p'.score = player.score) ∧
    (player.stock = [] → player.waste = [] →
      applyNertsAction s (.stock_draw pid) = s) := by
  have hilt : i < s.players.length := by
    by_contra hge
    rw [List.getElem?_eq_none (by omega)] at hget
    exact Option.noConfusion hget
  refine ⟨?_, ?_, ?_⟩
  · intro hne p' hp'
    have hpos : 0 < player.stock.length := List.length_pos.mpr hne
    have hacc : acceptedBy s (.stock_draw pid) = true := by
      unfold acceptedBy
      rw [if_neg (by rw [hfin]; simp)]
      simp only [NertsAction.playerId]
      simp only [hidx, hget, runAction]
      rw [if_pos hpos]
      simp
    obtain ⟨-, i0, player0, p, fs', d, hidx0, hget0, -, hrun, happly⟩ :=
      apply_accepted hacc
    simp only [NertsAction.playerId] at hidx0
    rw [hidx] at hidx0
    injection hidx0 with hi
    subst hi
    rw [hget] at hget0
    injection hget0 with hp
    subst hp
    obtain ⟨hfs, hd, hcases⟩ := runAction_stock_draw_inv hrun
    rcases hcases with ⟨-, hprec⟩ | ⟨hstock, -, -⟩
    · subst hprec hd
      rw [happly, finalize_players, List.getElem?_set_self hilt] at hp'
      injection hp' with hp'
      subst hp'
      exact ⟨rfl, rfl, rfl, rfl, Int.add_zero _⟩
    · exact absurd hstock hne
  · intro hstock hwne p' hp'
    have hpos : 0 < player.waste.length := List.length_pos.mpr hwne
    have hacc : acceptedBy s (.stock_draw pid) = true := by
      unfold acceptedBy
      rw [if_neg (by rw [hfin]; simp)]
      simp only [NertsAction.playerId]
      simp only [hidx, hget, runAction]
      rw [if_neg (by simp [hstock]), if_pos hpos]
      simp
    obtain ⟨-, i0, player0, p, fs', d, hidx0, hget0, -, hrun, happly⟩ :=
      apply_accepted hacc
    simp only [NertsAction.playerId] at hidx0
    rw [hidx] at hidx0
    injection hidx0 with hi
    subst hi
    rw [hget] at hget0
    injection hget0 with hp
    subst hp
    obtain ⟨hfs, hd, hcases⟩ := runAction_stock_draw_inv hrun
    rcases hcases with ⟨hpos', -⟩ | ⟨-, -, hprec⟩
    · rw [hstock] at hpos'
      simp at hpos'
    · subst hprec hd
      rw [happly, finalize_players, List.getElem?_set_self hilt] at hp'
      injection hp' with hp'
      subst hp'
      exact ⟨rfl, rfl, rfl, rfl, Int.add_zero _⟩
  · intro hstock hwaste
    have hacc : acceptedBy s (.stock_draw pid) = false := by
      unfold acceptedBy
      rw [if_neg (by rw [hfin]; simp)]
      simp only [NertsAction.playerId]
      simp only [hidx, hget, runAction]
      rw [if_neg (by simp [hstock]), if_neg (by simp [hwaste])]
      rfl
    exact apply_not_accepted hacc

/-- A face-down three of clubs, five copies of which seed a test stock. -/
def fdCard (n : Nat) : NertsCard :=
  { suit := .clubs, rank := .r3, id := "a-3C-" ++ toString n, ownerId := "a",
    faceUp := false }

/-- Player with a 5-card stock and a 1-card waste. -/
def exC6aPlayer : NertsPlayerState :=
  { id := "a", nertsPile := [aceHCard], tableau := [[], [], [], []],
    stock := [fdCard 0, fdCard 1, fdCard 2, fdCard 3, fdCard 4],
    waste := [twoHCard], score := 0 }

def exC6a : NertsState :=
  { players := [exC6aPlayer], foundations := [], startedAt := 0,
    finished := false, winnerId := none }

/-- Player `exC6aPlayer` after one `stock_draw`: top three stock cards drawn
face-up onto the waste. -/
def exC6aAfter : NertsPlayerState :=
  { id := "a", nertsPile := [aceHCard], tableau := [[], [], [], []],
    stock := [fdCard 0, fdCard 1],
    waste := [twoHCard, makeFaceUp (fdCard 4), makeFaceUp (fdCard 3),
      makeFaceUp (fdCard 2)], score := 0 }

/-- Player with empty stock and empty waste (the no-op case). -/
def exC6cPlayer : NertsPlayerState :=
  { id := "a", nertsPile := [aceHCard], tableau := [[], [], [], []],
    stock := [], waste := [], score := 0 }

def exC6c : NertsState :=
  { players := [exC6cPlayer], foundations := [], startedAt := 0,
    finished := false, winnerId := none }

theorem claim_C6_stock_draw_witness :
    exC6aAfter.stock = exC6aPlayer.stock.take
      (exC6aPlayer.stock.length - min 3 exC6aPlayer.stock.length) ∧
    exC6aAfter.waste = exC6aPlayer.waste ++
      (exC6aPlayer.stock.drop
        (exC6aPlayer.stock.length - min 3 exC6aPlayer.stock.length)).reverse.map
        makeFaceUp ∧
    applyNertsAction exC6c (.stock_draw "a") = exC6c := by
  obtain ⟨h1, h2, -, -, -⟩ :=
    (claim_C6_stock_draw exC6a "a" 0 exC6aPlayer rfl rfl rfl).1
      (by decide) exC6aAfter rfl
  exact ⟨h1, h2,
    (claim_C6_stock_draw exC6c "a" 0 exC6cPlayer rfl rfl rfl).2.2 rfl rfl⟩

/-- A face-down two of spades sitting on top of a face-up king: an
artificial (unreachable) column used to probe the run face-up check. -/
def c2sfdCard : NertsCard :=
  { suit := .spades, rank := .r2, id := "a-2S-fd", ownerId := "a",
    faceUp := false }

def exC7Player : NertsPlayerState :=
  { id := "a", nertsPile := [aceHCard],
    tableau := [[kingSCard, c2sfdCard], [], [], []],
    stock := [], waste := [], score := 0 }

def exC7 : NertsState :=
  { players := [exC7Player], foundations := [], startedAt := 0,
    finished := false, winnerId := none }

def exC7Act : NertsAction := .tableau_to_tableau "a" 0 1 "a-KS-2"

/-- C7, counterexample to the claim as stated over every state: the reducer
checks only the leading (named) card of the run for face-up-ness, so on this
crafted state it accepts a `tableau_to_tableau` whose moved run contains the
face-down `c2sfdCard`. -/
theorem claim_C7_counterexample :
    acceptedBy exC7 exC7Act = true ∧
    (exC7Player.tableau.getD 0 []).drop 0 = [kingSCard, c2sfdCard] ∧
    c2sfdCard.faceUp = false ∧
    applyNertsAction exC7 exC7Act ≠ exC7 := by
  refine ⟨rfl, rfl, rfl, ?_⟩
  decide

/-- C7, amended: restricted to states reachable from `initNerts`, every card
of an accepted `tableau_to_tableau` run is face-up (in reachable states all
tableau cards are face-up, and the reducer additionally checks the leading
card). -/
theorem claim_C7_run_faceUp (s : NertsState) (hreach : Reachable s)
    (pid cid : String) (fromIdx toIdx : Nat)
    (hacc : acceptedBy s (.tableau_to_tableau pid fromIdx toIdx cid) = true) :
    ∀ (i idx : Nat) (player : NertsPlayerState) (fromPile : List NertsCard),
      s.players.findIdx? (fun q => q.id == pid) = some i →
      s.players[i]? = some player →
      player.tableau[fromIdx]? = some fromPile →
      fromPile.findIdx? (fun c => c.id == cid) = some idx →
      ∀ c ∈ fromPile.drop idx, c.faceUp = true := by
  intro i idx player fromPile hidx hget hfrom hidx2 c hc
  exact (wf_reachable hreach).tabUp player (getElem?_some_mem hget) fromPile
    (getElem?_some_mem hfrom) c (List.mem_of_mem_drop hc)

/-- The seed stream producing a deal of `initNerts` on which a
`tableau_to_tableau` move (jack of spades onto queen of diamonds) is legal. -/
def exC7Seed : List Nat := (List.range 51).map fun t => t * t % 97

def exC7R : NertsState := initNerts { playerIds := ["a"] } [exC7Seed] 0

set_option maxRecDepth 8000 in
theorem claim_C7_run_faceUp_witness :
    ({ suit := Suit.spades, rank := Rank.jack, id := "a-JS-16",
       ownerId := "a", faceUp := true } : NertsCard).faceUp = true := by
  have h := claim_C7_run_faceUp exC7R
    ⟨{ playerIds := ["a"] }, [exC7Seed], 0, [], rfl⟩
    "a" "a-JS-16" 3 0 (by decide) 0 0 _ _ rfl rfl rfl rfl
  exact h _ (by decide)

theorem specScoreDelta_nonneg (a : NertsAction) : 0 ≤ specScoreDelta a := by
  cases a <;> simp [specScoreDelta]

/-- C8: scoring — an accepted action changes the acting player's score by
exactly the spec table's delta (+1 for `waste_to_foundation` and
`tableau_to_foundation`, +2 for `nerts_to_foundation`, 0 otherwise), and
every player's score is non-decreasing across any action. -/
theorem claim_C8_scores (s : NertsState) (a : NertsAction) :
    (∀ (j : Nat) (q q' : NertsPlayerState),
      s.players[j]? = some q →
      (applyNertsAction s a).players[j]? = some q' →
      q.score ≤ q'.score) ∧
    (∀ (i : Nat) (player p' : NertsPlayerState),
      acceptedBy s a = true →
      s.players.findIdx? (fun q => q.id == a.playerId) = some i →
      s.players[i]? = some player →
      (applyNertsAction s a).players[i]? = some p' →
      p'.score = player.score + specScoreDelta a) := by
  constructor
  · intro j q q' hq hq'
    cases hacc : acceptedBy s a with
    | false =>
      rw [apply_not_accepted hacc, hq] at hq'
      injection hq' with hq'
      subst hq'
      exact le_refl _
    | true =>
      obtain ⟨hfin, i0, player, p, fs', d, hidx0, hget0, hpid, hrun, happly⟩ :=
        apply_accepted hacc
      rw [happly, finalize_players] at hq'
      by_cases hji : i0 = j
      · subst hji
        have hilt : i0 < s.players.length := by
          by_contra hge
          rw [List.getElem?_eq_none (by omega)] at hget0
          exact Option.noConfusion hget0
        rw [List.getElem?_set_self hilt] at hq'
        injection hq' with hq'
        subst hq'
        rw [hget0] at hq
        injection hq with hq
        subst hq
        have hsc : p.score = player.score := (runAction_fields hrun).2.1
        have hd : d = specScoreDelta a := (runAction_fields hrun).2.2.1
        have hnn := specScoreDelta_nonneg a
        show player.score ≤ p.score + d
        omega
      · rw [List.getElem?_set_ne hji, hq] at hq'
        injection hq' with hq'
        subst hq'
        exact le_refl _
  · intro i player p' hacc hidx hget hp'
    obtain ⟨hfin, i0, player0, p, fs', d, hidx0, hget0, hpid, hrun, happly⟩ :=
      apply_accepted hacc
    rw [hidx] at hidx0
    injection hidx0 with hi
    subst hi
    rw [hget] at hget0
    injection hget0 with hp
    subst hp
    have hilt : i < s.players.length := by
      by_contra hge
      rw [List.getElem?_eq_none (by omega)] at hget
      exact Option.noConfusion hget
    rw [happly, finalize_players, List.getElem?_set_self hilt] at hp'
    injection hp' with hp'
    subst hp'
    have hsc : p.score = player.score := (runAction_fields hrun).2.1
    have hd : d = specScoreDelta a := (runAction_fields hrun).2.2.1
    show p.score + d = player.score + specScoreDelta a
    rw [hsc, hd]

/-- Player `exWinPlayer` after the winning `nerts_to_foundation`. -/
def exWinAfter : NertsPlayerState :=
  { id := "a", nertsPile := [], tableau := [[], [], [], []],
    stock := [], waste := [], score := 2 }

theorem claim_C8_scores_witness :
    exWinPlayer.score ≤ exWinAfter.score ∧
    exWinAfter.score = exWinPlayer.score + specScoreDelta exWinAct :=
  ⟨(claim_C8_scores exWin exWinAct).1 0 exWinPlayer exWinAfter rfl rfl,
   (claim_C8_scores exWin exWinAct).2 0 exWinPlayer exWinAfter rfl rfl rfl rfl⟩

/-- C10: frame condition — an action never touches `startedAt`, never
changes the number of players, and leaves every player record other than
the resolved acting player's (the first whose id matches) exactly as it
was; only that player, the shared foundations and the finished/winner
flags may change. -/
theorem claim_C10_frame (s : NertsState) (a : NertsAction) :
    (applyNertsAction s a).startedAt = s.startedAt ∧
    (applyNertsAction s a).players.length = s.players.length ∧
    (∀ j : Nat,
      s.players.findIdx? (fun q => q.id == a.playerId) ≠ some j →
      (applyNertsAction s a).players[j]? = s.players[j]?) := by
  cases hacc : acceptedBy s a with
  | false =>
    rw [apply_not_accepted hacc]
    exact ⟨rfl, rfl, fun _ _ => rfl⟩
  | true =>
    obtain ⟨hfin, i, player, p, fs', d, hidx, hget, hpid, hrun, happly⟩ :=
      apply_accepted hacc
    rw [happly]
    refine ⟨finalize_startedAt s i p fs' d, ?_, ?_⟩
    · rw [finalize_players, List.length_set]
    · intro j hj
      have hij : i ≠ j := fun he => hj (he ▸ hidx)
      rw [finalize_players, List.getElem?_set_ne hij]

theorem claim_C10_frame_witness :
    (applyNertsAction exWin exWinAct).startedAt = exWin.startedAt ∧
    (applyNertsAction exWin exWinAct).players[1]? = exWin.players[1]? :=
  ⟨(claim_C10_frame exWin exWinAct).1,
   (claim_C10_frame exWin exWinAct).2.2 1 (by decide)⟩

/-- C9: the bot policy — `botStep` resolves the bot player (finished game or
unknown id: state returned unchanged), evaluates the fixed priority cascade
nerts→foundation, tableau→foundation, waste→foundation, nerts→tableau,
tableau→tableau, waste→tableau, stock-draw, delegates the first feasible
proposal to `applyNertsAction` (the policy itself mutates nothing), and its
tableau→tableau search only ever proposes a move whose named card sits
directly on a face-down card, so the move exposes it. -/
theorem claim_C9_bot_policy (s : NertsState) (botId : String) :
    (s.finished = true → botStep s botId = s) ∧
    (s.players.find? (fun p => p.id == botId) = none → botStep s botId = s) ∧
    (∀ player, s.finished = false →
      s.players.find? (fun p => p.id == botId) = some player →
      ((∀ act, findNertsToFoundation s player = some act →
          botStep s botId = applyNertsAction s act) ∧
       (findNertsToFoundation s player = none →
        ∀ act, findTableauToFoundation s player = some act →
          botStep s botId = applyNertsAction s act) ∧
       (findNertsToFoundation s player = none →
        findTableauToFoundation s player = none →
        ∀ act, findWasteToFoundation s player = some act →
          botStep s botId = applyNertsAction s act) ∧
       (findNertsToFoundation s player = none →
        findTableauToFoundation s player = none →
        findWasteToFoundation s player = none →
        ∀ act, findNertsToTableau s player = some act →
          botStep s botId = applyNertsAction s act) ∧
       (findNertsToFoundation s player = none →
        findTableauToFoundation s player = none →
        findWasteToFoundation s player = none →
        findNertsToTableau s player = none →
        ∀ act, findTableauToTableau s player = some act →
          botStep s botId = applyNertsAction s act) ∧
       (findNertsToFoundation s player = none →
        findTableauToFoundation s player = none →
        findWasteToFoundation s player = none →
        findNertsToTableau s player = none →
        findTableauToTableau s player = none →
        ∀ act, findWasteToTableau s player = some act →
          botStep s botId = applyNertsAction s act) ∧
       (findNertsToFoundation s player = none →
        findTableauToFoundation s player = none →
        findWasteToFoundation s player = none →
        findNertsToTableau s player = none →
        findTableauToTableau s player = none →
        findWasteToTableau s player = none →
        botStep s botId = applyNertsAction s (.stock_draw botId)))) ∧
    (∀ player act, findTableauToTableau s player = some act →
      ∃ fromIdx toIdx pile idx card cardBefore,
        act = .tableau_to_tableau player.id fromIdx toIdx card.id ∧
        player.tableau[fromIdx]? = some pile ∧
        pile[idx]? = some card ∧ card.faceUp = true ∧
        0 < idx ∧ pile[idx - 1]? = some cardBefore ∧
        cardBefore.faceUp = false ∧
        toIdx ≠ fromIdx ∧
        canPlaceOnTableau (player.tableau.getD toIdx []).getLast? card = true) := by
  refine ⟨?_, ?_, ?_, ?_⟩
  · intro h
    unfold botStep
    rw [if_pos h]
  · intro h
    unfold botStep
    split
    · rfl
    · rw [h]
  · intro player hfin hfind
    have hfin' : ¬s.finished = true := by rw [hfin]; simp
    refine ⟨?_, ?_, ?_, ?_, ?_, ?_, ?_⟩
    · intro act h1
      unfold botStep
      rw [if_neg hfin']
      simp only [hfind, h1]
    · intro h1 act h2
      unfold botStep
      rw [if_neg hfin']
      simp only [hfind, h1, h2]
    · intro h1 h2 act h3
      unfold botStep
      rw [if_neg hfin']
      simp only [hfind, h1, h2, h3]
    · intro h1 h2 h3 act h4
      unfold botStep
      rw [if_neg hfin']
      simp only [hfind, h1, h2, h3, h4]
    · intro h1 h2 h3 h4 act h5
      unfold botStep
      rw [if_neg hfin']
      simp only [hfind, h1, h2, h3, h4, h5]
    · intro h1 h2 h3 h4 h5 act h6
      unfold botStep
      rw [if_neg hfin']
      simp only [hfind, h1, h2, h3, h4, h5, h6]
    · intro h1 h2 h3 h4 h5 h6
      unfold botStep
      rw [if_neg hfin']
      simp only [hfind, h1, h2, h3, h4, h5, h6]
  · intro player act h
    obtain ⟨fromIdx, hmem1, h1⟩ := List.exists_of_findSome?_eq_some h
    rw [List.mem_range] at hmem1
    obtain ⟨idx, hmem2, h2⟩ := List.exists_of_findSome?_eq_some h1
    rw [List.mem_range] at hmem2
    have hpile : player.tableau[fromIdx]? =
        some (player.tableau.getD fromIdx []) := by
      rw [List.getD_eq_getElem?_getD, List.getElem?_eq_getElem hmem1]
      rfl
    have hcard : (player.tableau.getD fromIdx [])[idx]? =
        some ((player.tableau.getD fromIdx []).getD idx default) := by
      rw [List.getD_eq_getElem?_getD (l := player.tableau.getD fromIdx []),
        List.getElem?_eq_getElem hmem2]
      rfl
    cases hup : ((player.tableau.getD fromIdx []).getD idx default).faceUp with
    | false =>
      simp only [hup, Bool.not_false, eq_self_iff_true, if_true] at h2
      exact Option.noConfusion h2
    | true =>
      simp only [hup, Bool.not_true, Bool.false_eq_true, if_false] at h2
      by_cases hidxpos : idx > 0
      · rw [if_pos hidxpos] at h2
        cases hcb : (player.tableau.getD fromIdx [])[idx - 1]? with
        | none =>
          simp only [hcb] at h2
          exact Option.noConfusion h2
        | some cardBefore =>
          simp only [hcb] at h2
          cases hcbup : cardBefore.faceUp with
          | true =>
            simp only [hcbup, eq_self_iff_true, if_true] at h2
            exact Option.noConfusion h2
          | false =>
            simp only [hcbup, Bool.false_eq_true, if_false] at h2
            rw [Option.map_eq_some'] at h2
            obtain ⟨toIdx, hinner, heq⟩ := h2
            obtain ⟨to', hmem3, h3⟩ := List.exists_of_findSome?_eq_some hinner
            cases hbe : (to' == fromIdx) with
            | true =>
              simp only [hbe, eq_self_iff_true, if_true] at h3
              exact Option.noConfusion h3
            | false =>
              simp only [hbe, Bool.false_eq_true, if_false] at h3
              cases hcp : canPlaceOnTableau
                  (player.tableau.getD to' []).getLast?
                  ((player.tableau.getD fromIdx []).getD idx default) with
              | false =>
                simp only [hcp, Bool.false_eq_true, if_false] at h3
                exact Option.noConfusion h3
              | true =>
                rw [if_pos hcp] at h3
                injection h3 with h3
                subst h3
                refine ⟨fromIdx, to', player.tableau.getD fromIdx [], idx,
                  (player.tableau.getD fromIdx []).getD idx default,
                  cardBefore, heq.symm, hpile, hcard, hup, hidxpos, hcb,
                  hcbup, ?_, hcp⟩
                intro hcontra
                rw [hcontra] at hbe
                simp at hbe
      · rw [if_neg hidxpos] at h2
        exact Option.noConfusion h2

/-- A player whose first column hides a face-down card under a movable
king, so the bot's tableau-to-tableau tier fires. -/
def exC9Player : NertsPlayerState :=
  { id := "a", nertsPile := [], tableau := [[c2sfdCard, kingSCard], [], [], []],
    stock := [], waste := [], score := 0 }

def exC9 : NertsState :=
  { players := [exC9Player], foundations := [], startedAt := 0,
    finished := false, winnerId := none }

theorem claim_C9_bot_policy_witness :
    botStep exFin "a" = exFin ∧
    botStep exWin "zzz" = exWin ∧
    botStep exWin "a" = applyNertsAction exWin (.nerts_to_foundation "a" 0) ∧
    kingSCard.faceUp = true ∧ c2sfdCard.faceUp = false := by
  refine ⟨(claim_C9_bot_policy exFin "a").1 rfl,
    (claim_C9_bot_policy exWin "zzz").2.1 rfl,
    ((claim_C9_bot_policy exWin "a").2.2.1 exWinPlayer rfl rfl).1
      (.nerts_to_foundation "a" 0) rfl, ?_, ?_⟩ <;>
  · obtain ⟨fromIdx, toIdx, pile, idx, card, cb, heq, hpile, hcard, hup,
      hpos, hcb, hcbup, hne, hcp⟩ :=
      (claim_C9_bot_policy exC9 "a").2.2.2 exC9Player
        (.tableau_to_tableau "a" 0 1 "a-KS-2") rfl
    injection heq with e1 e2 e3 e4
    subst e2 e3
    rw [show exC9Player.tableau[(0 : Nat)]? = some [c2sfdCard, kingSCard]
      from rfl] at hpile
    injection hpile with hpile
    subst hpile
    have hlt : idx < 2 := by
      by_contra hge
      rw [List.getElem?_eq_none (l := [c2sfdCard, kingSCard]) (by
        simp only [List.length_cons, List.length_nil]
        omega)] at hcard
      exact Option.noConfusion hcard
    have hidx1 : idx = 1 := by omega
    subst hidx1
    rw [show ([c2sfdCard, kingSCard] : List NertsCard)[(1 : Nat)]? =
      some kingSCard from rfl] at hcard
    injection hcard with hcard
    rw [show ([c2sfdCard, kingSCard] : List NertsCard)[(1 : Nat) - 1]? =
      some c2sfdCard from rfl] at hcb
    injection hcb with hcb
    first
      | exact hcard ▸ hup
      | exact hcb ▸ hcbup

end Nerts
